import Mathlib

/-
  Verification of the batch generation orchestrator, generation client and
  image transcoder of the multi-angle product photography app.

  Sources modelled (shallow embedding):
  - src/App.tsx: handleSelectFolder (catalog ingestion and sorting),
    handleGenerateBatch and handleGenerateAll (batch orchestrator).
  - the current services/gemini.ts (the repository copy whose
    generateProductAngle takes the apiKey as its seventh parameter and whose
    success path calls resizeBase64Image; this is the copy that matches the
    call sites in src/App.tsx, which pass the apiKey state as the seventh
    argument): generateProductAngle retry loop, generateAllProductAngles
    padding and truncation, resizeBase64Image.

  Remote calls, wall-clock time and the browser canvas are modelled by
  oracles: a call outcome function gives, per attempt, either an error
  (with an optional HTTP status) or a raw image; an image is modelled as its
  decoded pixel dimensions plus an opaque payload.
-/

namespace AIGen

/-- Model of a decoded image: pixel dimensions plus an opaque payload
standing for the actual pixel data of the encoded string. -/
structure Img where
  width : Nat
  height : Nat
  pix : String
deriving DecidableEq, Repr

/-- Model of a thrown JS error: its message and, when the failure came from
the HTTP transport, its numeric status. A plain Error (such as the decode
failure or the empty-result failure) has no status. -/
structure GenError where
  message : String
  status : Option Nat
deriving DecidableEq, Repr

/-- The missing-credential error thrown by generateProductAngle,
generateWithImagen, transformImage and generateAllProductAngles before any
network activity when no API key is available. -/
def missingCredentialErr : GenError :=
  { message := "API Key is required. Please enter your Gemini API key in the settings.",
    status := none }

/-- The empty-result error thrown when the response contains no image part. -/
def emptyResultErr : GenError :=
  { message := "No image data returned from model.", status := none }

/-- The decode failure surfaced by resizeBase64Image when the input cannot
be loaded as an image (the img.onerror path). -/
def decodeFailureErr : GenError :=
  { message := "Failed to load image for resizing", status := none }

/-- Source: the retry guard err.status >= 500 || err.status === 429.
An error without a status never satisfies the guard (in JS, undefined
compared with a number is false). -/
def retryable (e : GenError) : Bool :=
  match e.status with
  | some s => (500 ≤ s) || (s == 429)
  | none => false

/-- Source: resizeBase64Image(base64Image, targetSize). The canvas is created
with width = height = targetSize and drawImage stretches the decoded image
onto it, so the output dimensions are exactly targetSize x targetSize
whatever the input dimensions were; the payload is carried over. The input
is none when the data cannot be decoded (img.onerror fires), in which case
the promise rejects. -/
def resizeBase64Image (raw : Option Img) (targetSize : Nat) : Except GenError Img :=
  match raw with
  | none => .error decodeFailureErr
  | some i => .ok { width := targetSize, height := targetSize, pix := i.pix }

/-- One execution of the try block of generateProductAngle: the remote call
either throws (left) or yields a raw image payload which may or may not be
decodable (modelled as Option Img); on success the raw image is passed
through resizeBase64Image before being returned. The oracle is indexed by
the retryCount of the attempt. -/
def tryOnce (oracle : Nat → Except GenError (Option Img)) (targetSize retryCount : Nat) :
    Except GenError Img :=
  match oracle retryCount with
  | .error e => .error e
  | .ok raw => resizeBase64Image raw targetSize

instance {ε α : Type} [DecidableEq ε] [DecidableEq α] : DecidableEq (Except ε α) :=
  fun a b =>
    match a, b with
    | .ok x, .ok y => if h : x = y then .isTrue (by rw [h]) else .isFalse (by simp [h])
    | .error x, .error y => if h : x = y then .isTrue (by rw [h]) else .isFalse (by simp [h])
    | .ok _, .error _ => .isFalse (by simp)
    | .error _, .ok _ => .isFalse (by simp)

/-- Trace of one generateProductAngle call: the surfaced result, the number
of remote attempts actually performed, and the list of pre-retry delays in
milliseconds, in order. -/
structure CallTrace where
  result : Except GenError Img
  attempts : Nat
  delays : List Nat
deriving DecidableEq, Repr

/-- Source: the catch block of generateProductAngle. On an error, when
retryCount < 3 and the error is retryable, wait 2 ^ retryCount * 1000
milliseconds and recurse with retryCount + 1, otherwise rethrow. The source
condition retryCount < 3 is carried here as the budget argument, which
equals 3 - retryCount; the recursion is structural on the budget. -/
def attemptFrom (oracle : Nat → Except GenError (Option Img)) (targetSize : Nat) :
    Nat → Nat → CallTrace
  | retryCount, budget =>
    match tryOnce oracle targetSize retryCount with
    | .ok img => { result := .ok img, attempts := 1, delays := [] }
    | .error e =>
      match budget with
      | 0 => { result := .error e, attempts := 1, delays := [] }
      | b + 1 =>
        if retryable e then
          let rest := attemptFrom oracle targetSize (retryCount + 1) b
          { result := rest.result, attempts := rest.attempts + 1,
            delays := (2 ^ retryCount * 1000) :: rest.delays }
        else { result := .error e, attempts := 1, delays := [] }

/-- Source: generateProductAngle. First the credential check (key is the
value of apiKey || import.meta.env.VITE_GEMINI_API_KEY, empty string when
absent): without a key the call throws the missing-credential error before
any network activity (zero attempts). With a key, the attempt loop starts
at retryCount = 0 with the full retry budget of 3 additional attempts.
The Imagen branch and the Gemini branch of the source share this exact
credential check, retry guard and unconditional resize, so one model covers
the dispatch on isImagenModel. -/
def generateProductAngleM (key : String) (oracle : Nat → Except GenError (Option Img))
    (targetSize : Nat) : CallTrace :=
  if key = "" then { result := .error missingCredentialErr, attempts := 0, delays := [] }
  else attemptFrom oracle targetSize 0 3

/-- Source: the while loop of generateAllProductAngles that pushes
resultImages[resultImages.length - 1] while resultImages.length <
angles.length. -/
def padWithLast (l : List String) (n : Nat) : List String :=
  if l.length < n then padWithLast (l ++ [l.getLastD ""]) n else l
termination_by n - l.length
decreasing_by simp_all; omega

/-- Source: the tail of generateAllProductAngles, applied to the list of
images extracted (and individually resized) from the response parts: throw
the empty-result error when nothing was extracted, otherwise pad with the
last image up to the requested count and truncate with slice(0,
angles.length). -/
def extractAndPad (resultImages : List String) (numAngles : Nat) :
    Except GenError (List String) :=
  if resultImages.length = 0 then .error emptyResultErr
  else .ok ((padWithLast resultImages numAngles).take numAngles)

/-- Status of one image slot, as in types.ts. -/
inductive Status where
  | pending
  | processing
  | completed
  | failed
deriving DecidableEq, Repr

/-- The AppStatus union of App.tsx. -/
inductive AppStatus where
  | idle
  | processing
  | completed
  | error
deriving DecidableEq, Repr

/-- Severity of an activity log entry. -/
inductive LogKind where
  | info
  | success
  | error
  | warning
deriving DecidableEq, Repr

/-- One activity log record. The timestamp of the source record is not
modelled; the numeric decorations the source splices into some messages
from stale closure variables are elided. -/
structure LogEntry where
  msg : String
  kind : LogKind
deriving DecidableEq, Repr

/-- Source: addLog keeps the last 10 previous entries (prev.slice(-10)) and
appends the new one, so the log is a ring of at most 11 entries. -/
def addLog (log : List LogEntry) (e : LogEntry) : List LogEntry :=
  (log.drop (log.length - 10)) ++ [e]

/-- The ImageFile record of types.ts. The File object and the preview
string are modelled as optional images: none stands for the empty File and
the empty preview string that a failed slot carries. -/
structure ImageFile where
  file : Option Img
  preview : Option Img
  status : Status
  name : String
  path : String
  angle : Option String
deriving DecidableEq, Repr

/-- The Product record of types.ts: a named group of reference images plus
the results of the most recent run. -/
structure Product where
  name : String
  images : List ImageFile
  generatedImages : List ImageFile
deriving DecidableEq, Repr

/-- The AngleConfig record of types.ts. -/
structure AngleConfig where
  name : String
  prompt : String
  enabled : Bool
deriving DecidableEq, Repr

/-- The progress-tracking state threaded through a run: the counters held
in React state by App.tsx, plus a global unit counter used to index the
per-unit oracles. -/
structure RunSt where
  processed : Nat
  requestCount : Nat
  unitIdx : Nat
  stopRequested : Bool
  log : List LogEntry
  apiStatus : String
deriving DecidableEq, Repr

/-- The ambient App.tsx state touched by the handlers modelled here. -/
structure AppState where
  products : List Product
  status : AppStatus
  errorMsg : String
  totalToProcess : Nat
  processed : Nat
  requestCount : Nat
  stopRequested : Bool
  log : List LogEntry
  apiStatus : String
deriving DecidableEq, Repr

/-- Source: the completed ImageFile pushed on a successful unit: the
fetched File and the preview both hold the generated image. -/
def angleSuccessEntry (pname : String) (a : AngleConfig) (img : Img) : ImageFile :=
  { file := some img, preview := some img, status := .completed,
    name := a.name ++ ".png", path := pname ++ "/" ++ a.name ++ ".png",
    angle := some a.name }

/-- Source: the failed ImageFile pushed on a failed unit: an empty File
(new File([], name)) and an empty preview string; note that no field of
this record carries the error message. -/
def angleFailEntry (pname : String) (a : AngleConfig) : ImageFile :=
  { file := none, preview := none, status := .failed,
    name := a.name ++ ".png", path := pname ++ "/" ++ a.name ++ ".png",
    angle := some a.name }

/-- Source: the state updates performed before issuing the call of one unit
in handleGenerateBatch: set the api status line and log the request. -/
def requestLogSt (st : RunSt) (pname : String) (a : AngleConfig) : RunSt :=
  { st with
    apiStatus := "Generating " ++ a.name ++ " for " ++ pname ++ "...",
    log := addLog st.log { msg := "API REQUEST: " ++ a.name ++ " angle", kind := .info } }

/-- Source: the state updates shared by the success and failure branches of
one unit in handleGenerateBatch: increment the request counter, log the
outcome, increment the processed counter; the global unit counter advances.
The stopRequested field of RunSt models the AMBIENT React state value of
the flag: setStopRequested(true) issued by the environment while this unit
was in flight is latched into it. The polls of the running handler do NOT
read this field: being an async closure, the handler reads the stale value
of the useState binding captured when the run started, carried separately
as the stopCaptured argument of the loop functions below. -/
def unitDoneSt (st : RunSt) (entry : LogEntry) (cancel : Nat → Bool) : RunSt :=
  { st with
    requestCount := st.requestCount + 1,
    log := addLog st.log entry,
    processed := st.processed + 1,
    unitIdx := st.unitIdx + 1,
    stopRequested := st.stopRequested || cancel st.unitIdx }

/-- Source: the stop path of handleGenerateBatch (both poll sites): log the
stop, record the stopped api status and write false to the ambient flag
(setStopRequested(false)). This path is reachable only when the captured
value was true, that is when the flag was already set when the run
started. -/
def stopObservedSt (st : RunSt) : RunSt :=
  { st with
    stopRequested := false,
    log := addLog st.log { msg := "Generation stopped by user", kind := .warning },
    apiStatus := "Stopped by user" }

/-- Source: the inner for-of loop over enabledAngles of handleGenerateBatch.
Arguments: call gives the surfaced result of the generateProductAngle call
for each global unit index; cancel u is true when the environment calls
setStopRequested(true) while unit u is in flight (this reaches only the
ambient flag, see unitDoneSt); stopCaptured is the stopRequested value the
async closure captured when the run started - the value every poll of this
run actually reads, constant for the whole run (the stale-closure semantics
of the source). When a poll reads true, the handler logs the stop, writes
false to the ambient flag, records the stopped api status and returns
(third component true). On success a completed entry is pushed, on failure
a failed entry; either branch increments the request counter and the
processed counter by one. -/
def runAngles (call : Nat → Except GenError Img) (cancel : Nat → Bool)
    (stopCaptured : Bool) (pname : String) :
    List AngleConfig → RunSt → List ImageFile → RunSt × List ImageFile × Bool
  | [], st, acc => (st, acc, false)
  | a :: rest, st, acc =>
    if stopCaptured then (stopObservedSt st, acc, true)
    else
      let st1 := requestLogSt st pname a
      match call st1.unitIdx with
      | .ok img =>
        runAngles call cancel stopCaptured pname rest
          (unitDoneSt st1 { msg := a.name ++ " completed", kind := .success } cancel)
          (acc ++ [angleSuccessEntry pname a img])
      | .error e =>
        runAngles call cancel stopCaptured pname rest
          (unitDoneSt st1 { msg := a.name ++ " failed: " ++ e.message, kind := .error } cancel)
          (acc ++ [angleFailEntry pname a])

/-- Source: the log line emitted at the top of each group iteration of
handleGenerateBatch. -/
def groupLogSt (st : RunSt) (pname : String) : RunSt :=
  { st with log := addLog st.log { msg := "Processing product: " ++ pname, kind := .info } }

/-- Source: the outer for loop of handleGenerateBatch over productsToProcess.
Before each group the captured stop value is polled (a true read logs the
stop, writes the ambient flag to false and returns). After the angle loop
of a group finishes normally, the accumulated entries are committed at the
catalog position gi; when the angle loop returned via the stop path, the
handler returns without committing the partial group. -/
def runGroups (call : Nat → Except GenError Img) (cancel : Nat → Bool)
    (stopCaptured : Bool) (angles : List AngleConfig) :
    List Product → Nat → List Product → RunSt → List Product × RunSt × Bool
  | [], _, catalog, st => (catalog, st, false)
  | p :: rest, gi, catalog, st =>
    if stopCaptured then (catalog, stopObservedSt st, true)
    else
      let st1 := groupLogSt st p.name
      match runAngles call cancel stopCaptured p.name angles st1 [] with
      | (st2, _, true) => (catalog, st2, true)
      | (st2, gen, false) =>
        runGroups call cancel stopCaptured angles rest (gi + 1)
          (catalog.set gi { p with generatedImages := gen }) st2

/-- Source: the run-entry state writes of handleGenerateBatch before the
group loop: the processed counter, the request counter and the activity log
are reset (a start entry is then logged); the stop flag is NOT touched and
keeps the ambient value. -/
def batchEntryRunSt (s : AppState) : RunSt :=
  { processed := 0, requestCount := 0, unitIdx := 0,
    stopRequested := s.stopRequested,
    log := addLog [] { msg := "Starting generation process...", kind := .info },
    apiStatus := s.apiStatus }

/-- Source: handleGenerateBatch. Early return when no products are loaded.
Otherwise: filter the enabled angles, slice the catalog to
[currentProductIndex, min(currentProductIndex + batchSize, length)),
compute totalAngles as slice length times enabled count, reset the
processed counter, the request counter and the log (the stop flag is NOT
reset), then run the group loop. Both the stopped exit and the normal exit
set status to completed; only the normal exit appends the two final log
entries and sets the api status to Completed. -/
def handleGenerateBatch (s : AppState) (currentProductIndex batchSize : Nat)
    (angles : List AngleConfig) (call : Nat → Except GenError Img) (cancel : Nat → Bool) :
    AppState :=
  if s.products.length = 0 then s
  else
    let enabledAngles := angles.filter (·.enabled)
    let startIndex := currentProductIndex
    let endIndex := min (startIndex + batchSize) s.products.length
    let productsToProcess := (s.products.drop startIndex).take (endIndex - startIndex)
    let totalAngles := productsToProcess.length * enabledAngles.length
    let st0 := batchEntryRunSt s
    match runGroups call cancel s.stopRequested enabledAngles productsToProcess
        startIndex s.products st0 with
    | (catalog, st, true) =>
      { s with products := catalog, status := .completed, errorMsg := "",
               totalToProcess := totalAngles, processed := st.processed,
               requestCount := st.requestCount, stopRequested := st.stopRequested,
               log := st.log, apiStatus := st.apiStatus }
    | (catalog, st, false) =>
      { s with products := catalog, status := .completed, errorMsg := "",
               totalToProcess := totalAngles, processed := st.processed,
               requestCount := st.requestCount, stopRequested := st.stopRequested,
               log := addLog (addLog st.log { msg := "Total API requests", kind := .success })
                        { msg := "All products completed!", kind := .success },
               apiStatus := "Completed" }

/-- Source: the state updates of one unit in handleGenerateAll: only the
processed counter is incremented (neither branch touches the request
counter, and the failure branch does not log the message); the global unit
counter advances. As in unitDoneSt, a setStopRequested(true) issued while
this unit was in flight is latched into the AMBIENT flag only - the polls
of the running handler read the stale captured value instead. -/
def unitDoneAllSt (st : RunSt) (cancel : Nat → Bool) : RunSt :=
  { st with
    processed := st.processed + 1,
    unitIdx := st.unitIdx + 1,
    stopRequested := st.stopRequested || cancel st.unitIdx }

/-- Source: the stop path of handleGenerateAll: log the stop and write
false to the ambient flag (the api status line is not touched). -/
def stopObservedAllSt (st : RunSt) : RunSt :=
  { st with
    stopRequested := false,
    log := addLog st.log { msg := "Generation stopped by user", kind := .warning } }

/-- Source: the inner angle loop of handleGenerateAll. Unlike the batch
variant it never touches the request counter or the api status, and it
logs nothing except on the stop path; the pushed entries and the processed
counter increments are identical. The polls read the captured value
stopCaptured, constant for the run (stale-closure semantics). -/
def runAnglesAll (call : Nat → Except GenError Img) (cancel : Nat → Bool)
    (stopCaptured : Bool) (pname : String) :
    List AngleConfig → RunSt → List ImageFile → RunSt × List ImageFile × Bool
  | [], st, acc => (st, acc, false)
  | a :: rest, st, acc =>
    if stopCaptured then (stopObservedAllSt st, acc, true)
    else
      match call st.unitIdx with
      | .ok img =>
        runAnglesAll call cancel stopCaptured pname rest (unitDoneAllSt st cancel)
          (acc ++ [angleSuccessEntry pname a img])
      | .error _ =>
        runAnglesAll call cancel stopCaptured pname rest (unitDoneAllSt st cancel)
          (acc ++ [angleFailEntry pname a])

/-- Source: the outer loop of handleGenerateAll over every product. -/
def runGroupsAll (call : Nat → Except GenError Img) (cancel : Nat → Bool)
    (stopCaptured : Bool) (angles : List AngleConfig) :
    List Product → Nat → List Product → RunSt → List Product × RunSt × Bool
  | [], _, catalog, st => (catalog, st, false)
  | p :: rest, gi, catalog, st =>
    if stopCaptured then (catalog, stopObservedAllSt st, true)
    else
      match runAnglesAll call cancel stopCaptured p.name angles st [] with
      | (st2, _, true) => (catalog, st2, true)
      | (st2, gen, false) =>
        runGroupsAll call cancel stopCaptured angles rest (gi + 1)
          (catalog.set gi { p with generatedImages := gen }) st2

/-- Source: the run-entry state of handleGenerateAll: only the processed
counter is reset; the request counter, the log, the api status and the
stop flag keep their ambient values. -/
def allEntryRunSt (s : AppState) : RunSt :=
  { processed := 0, requestCount := s.requestCount, unitIdx := 0,
    stopRequested := s.stopRequested, log := s.log, apiStatus := s.apiStatus }

/-- Source: handleGenerateAll. It resets the processed counter and the
total, but neither the request counter nor the log, and processes every
product from index 0; both exits set status to completed. -/
def handleGenerateAll (s : AppState) (angles : List AngleConfig)
    (call : Nat → Except GenError Img) (cancel : Nat → Bool) : AppState :=
  if s.products.length = 0 then s
  else
    let enabledAngles := angles.filter (·.enabled)
    let totalAngles := s.products.length * enabledAngles.length
    let st0 := allEntryRunSt s
    match runGroupsAll call cancel s.stopRequested enabledAngles s.products 0
        s.products st0 with
    | (catalog, st, _) =>
      { s with products := catalog, status := .completed, errorMsg := "",
               totalToProcess := totalAngles, processed := st.processed,
               requestCount := st.requestCount, stopRequested := st.stopRequested,
               log := st.log, apiStatus := st.apiStatus }

/-- Expected result list of one group: one entry per enabled angle, in the
configured angle order, completed exactly when the call for the
corresponding unit index succeeded. Used to state the orchestrator
theorems. -/
def groupResults (call : Nat → Except GenError Img) (pname : String) :
    List AngleConfig → Nat → List ImageFile
  | [], _ => []
  | a :: rest, u =>
    (match call u with
     | .ok img => angleSuccessEntry pname a img
     | .error _ => angleFailEntry pname a) :: groupResults call pname rest (u + 1)

/-- Expected catalog after committing the groups gs at consecutive
positions starting at gi, the first group starting at global unit index u.
Used to state the orchestrator theorems. -/
def commitGroups (call : Nat → Except GenError Img) (angles : List AngleConfig)
    (catalog : List Product) (gi : Nat) (gs : List Product) (u : Nat) : List Product :=
  match gs with
  | [] => catalog
  | p :: rest =>
    commitGroups call angles
      (catalog.set gi { p with generatedImages := groupResults call p.name angles u })
      (gi + 1) rest (u + angles.length)

/-- A file handed to handleSelectFolder by the directory input: its name,
its webkitRelativePath (rooted at the selected folder), its MIME type and
its decoded content. -/
structure RawFile where
  name : String
  path : String
  mime : String
  img : Img
deriving DecidableEq, Repr

/-- Executable model of the JS String.prototype.startsWith: the character
list of the pattern must be an initial segment of the character list of the
subject. -/
def strStartsWith (s pat : String) : Bool := List.isPrefixOf pat.data s.data

/-- Source: file.type.startsWith(image/). -/
def isImage (f : RawFile) : Bool := strStartsWith f.mime "image/"

/-- Source: the ImageFile record built for each catalog reference image. -/
def mkImageFile (f : RawFile) : ImageFile :=
  { file := some f.img, preview := some f.img, status := .pending,
    name := f.name, path := f.path, angle := none }

/-- Inner insertion-ordered map of handleSelectFolder: color name to file
list. JS Map iteration follows insertion order, so it is modelled by an
association list where a new key is appended at the end. -/
abbrev ColorMap := List (String × List RawFile)

/-- Outer insertion-ordered map: product name to color map. -/
abbrev FolderMap := List (String × ColorMap)

/-- Appends f to the bucket of key c, creating the bucket at the end when
the key is new (Map.set followed by push on the stored array). -/
def insertColor (m : ColorMap) (c : String) (f : RawFile) : ColorMap :=
  match m with
  | [] => [(c, [f])]
  | (c0, fs) :: rest =>
    if c0 = c then (c0, fs ++ [f]) :: rest else (c0, fs) :: insertColor rest c f

/-- Two-level insertion into the folder map. -/
def insertFolder (m : FolderMap) (p c : String) (f : RawFile) : FolderMap :=
  match m with
  | [] => [(p, insertColor [] c f)]
  | (p0, cm) :: rest =>
    if p0 = p then (p0, insertColor cm c f) :: rest else (p0, cm) :: insertFolder rest p c f

/-- Executable model of the JS String.prototype.split on the slash
separator: accumulate characters until a slash, emit the segment, continue;
the empty string splits to one empty segment, matching JS. -/
def splitSlashAux : List Char → List Char → List String
  | [], acc => [⟨acc.reverse⟩]
  | ch :: rest, acc =>
    if ch = '/' then ⟨acc.reverse⟩ :: splitSlashAux rest []
    else splitSlashAux rest (ch :: acc)

/-- Splits a path on the slash character. -/
def splitSlash (s : String) : List String := splitSlashAux s.data []

/-- Source: the per-file classification of handleSelectFolder. pathParts is
webkitRelativePath split on the slash; files with fewer than two segments
are skipped; productName is pathParts[1]; when pathParts.length > 3 the
file goes into the color bucket pathParts[2], otherwise into the bucket
with the literal key default. -/
def fileKey (f : RawFile) : Option (String × String) :=
  let parts := splitSlash f.path
  if parts.length < 2 then none
  else if parts.length > 3 then some (parts.getD 1 "", parts.getD 2 "")
  else some (parts.getD 1 "", "default")

/-- Source: one iteration of the first loop of handleSelectFolder:
non-image files and paths with fewer than two segments are skipped, every
other file is inserted under its (product, color) key. -/
def scanStep (m : FolderMap) (f : RawFile) : FolderMap :=
  if isImage f then
    match fileKey f with
    | none => m
    | some (p, c) => insertFolder m p c f
  else m

/-- Source: the first loop of handleSelectFolder, building folderMap by
folding over the selected files. -/
def buildFolderMap (files : List RawFile) : FolderMap :=
  files.foldl scanStep []

/-- Source: the second loop of handleSelectFolder, turning folderMap into
the product list: one product per (productName, colorName) bucket with at
least one image, named productName for the default bucket and
productName - colorName otherwise, with empty generatedImages. -/
def productsOfMap (m : FolderMap) : List Product :=
  m.flatMap fun pc =>
    pc.2.flatMap fun cf =>
      let images := cf.2.map mkImageFile
      if images.length > 0 then
        [{ name := if cf.1 = "default" then pc.1 else pc.1 ++ " - " ++ cf.1,
           images := images, generatedImages := [] }]
      else []

/-- The unsorted product list built by handleSelectFolder. -/
def buildProducts (files : List RawFile) : List Product :=
  productsOfMap (buildFolderMap files)

/-- Source: the regular expression test for a leading digit in the sort
comparator. -/
def startsDigit (s : String) : Bool :=
  match s.data with
  | [] => false
  | c :: _ => c.isDigit

/-- Source: the sort comparator of handleSelectFolder. Groups whose name
starts with a digit come first; within a class the comparison is delegated
to localeCompare with the numeric and base-sensitivity options, modelled
here as an abstract integer-valued comparator parameter. -/
def productCompare (locale : String → String → Int) (a b : Product) : Int :=
  let aN := startsDigit a.name
  let bN := startsDigit b.name
  if aN && !bN then -1
  else if !aN && bN then 1
  else locale a.name b.name

/-- Source: handleSelectFolder builds the product list, sorts it with
productCompare and stores the sorted list as the catalog. Array.sort with a
consistent comparator is a stable sort, modelled by mergeSort on the
comparator-nonpositive relation. -/
def handleSelectFolderModel (locale : String → String → Int) (files : List RawFile) :
    List Product :=
  (buildProducts files).mergeSort fun a b => decide (productCompare locale a b ≤ 0)

/-- The group name the grouping rule assigns to a file, used to state the
ingestion theorems. -/
def expectedGroupName (f : RawFile) : Option String :=
  match fileKey f with
  | none => none
  | some (p, c) => some (if c = "default" then p else p ++ " - " ++ c)

/-! Helper lemmas for the generation client. -/

lemma padWithLast_eq (l : List String) (n : Nat) (h : l ≠ []) :
    padWithLast l n = l ++ List.replicate (n - l.length) (l.getLastD "") := by
  induction l, n using padWithLast.induct with
  | case1 l n hlt ih =>
    rw [padWithLast, if_pos hlt]
    have hne : l ++ [l.getLastD ""] ≠ [] := by simp
    rw [ih hne]
    have hlast : (l ++ [l.getLastD ""]).getLastD "" = l.getLastD "" := by
      simp [List.getLastD_concat]
    rw [hlast, List.append_assoc]
    congr 1
    have : n - l.length = (n - (l.length + 1)) + 1 := by omega
    rw [List.length_append, List.length_singleton, this, List.replicate_succ]
    simp
  | case2 l n hge =>
    rw [padWithLast, if_neg hge]
    have : n - l.length = 0 := by omega
    simp [this]

lemma resizeBase64Image_ok {raw : Option Img} {t : Nat} {img : Img}
    (h : resizeBase64Image raw t = .ok img) : img.width = t ∧ img.height = t := by
  cases raw with
  | none => simp [resizeBase64Image] at h
  | some i =>
    simp [resizeBase64Image] at h
    rw [← h]
    constructor <;> rfl

lemma attemptFrom_ok_dims (oracle : Nat → Except GenError (Option Img)) (t : Nat) :
    ∀ (budget retryCount : Nat) (img : Img),
      (attemptFrom oracle t retryCount budget).result = .ok img →
      img.width = t ∧ img.height = t := by
  intro budget
  induction budget with
  | zero =>
    intro retryCount img h
    rw [attemptFrom] at h
    cases htry : tryOnce oracle t retryCount with
    | ok i =>
      rw [htry] at h
      simp at h
      subst h
      unfold tryOnce at htry
      cases horacle : oracle retryCount with
      | ok raw => rw [horacle] at htry; exact resizeBase64Image_ok htry
      | error e => rw [horacle] at htry; simp at htry
    | error e => rw [htry] at h; simp at h
  | succ b ih =>
    intro retryCount img h
    rw [attemptFrom] at h
    cases htry : tryOnce oracle t retryCount with
    | ok i =>
      rw [htry] at h
      simp at h
      subst h
      unfold tryOnce at htry
      cases horacle : oracle retryCount with
      | ok raw => rw [horacle] at htry; exact resizeBase64Image_ok htry
      | error e => rw [horacle] at htry; simp at htry
    | error e =>
      rw [htry] at h
      by_cases hr : retryable e = true
      · simp [hr] at h
        exact ih (retryCount + 1) img h
      · simp [hr] at h

lemma attemptFrom_allFail (oracle : Nat → Except GenError (Option Img)) (t : Nat)
    (e : GenError) (he : retryable e = true) (hor : ∀ n, oracle n = .error e) :
    ∀ (budget retryCount : Nat),
      attemptFrom oracle t retryCount budget =
        { result := .error e, attempts := budget + 1,
          delays := (List.range budget).map fun j => 2 ^ (retryCount + j) * 1000 } := by
  intro budget
  induction budget with
  | zero =>
    intro retryCount
    rw [attemptFrom]
    simp [tryOnce, hor retryCount]
  | succ b ih =>
    intro retryCount
    rw [attemptFrom]
    simp only [tryOnce, hor retryCount, he, if_true]
    rw [ih (retryCount + 1)]
    simp [List.range_succ_eq_map, Function.comp]
    intro a _
    omega

/-! Theorems for the generation client claims. -/

/-- Claim C3 (confirmed): with a credential present, a call whose remote
request always fails with a retryable status (5xx or 429) is attempted
exactly 4 times in total (one initial attempt plus three retries), with
delays of 2 ^ attempt seconds, that is 1000 ms, 2000 ms and 4000 ms before
retries one, two and three, after which the failure is surfaced; a call
failing with any non-retryable error propagates it immediately after a
single attempt with no delay. -/
theorem c3_retry_policy (key : String) (oracle : Nat → Except GenError (Option Img))
    (targetSize : Nat) (e : GenError) (hkey : key ≠ "") :
    (retryable e = true → (∀ n, oracle n = .error e) →
      generateProductAngleM key oracle targetSize =
        { result := .error e, attempts := 4, delays := [1000, 2000, 4000] }) ∧
    (retryable e = false → oracle 0 = .error e →
      generateProductAngleM key oracle targetSize =
        { result := .error e, attempts := 1, delays := [] }) := by
  constructor
  · intro hr hor
    rw [generateProductAngleM, if_neg hkey, attemptFrom_allFail oracle targetSize e hr hor 3 0]
    norm_num [List.range_succ]
  · intro hr hor
    rw [generateProductAngleM, if_neg hkey, attemptFrom]
    simp [tryOnce, hor, hr]

/-- Witness for c3_retry_policy at a concrete key, a concrete always-500
oracle and a concrete non-retryable oracle. -/
theorem c3_retry_policy_witness :
    generateProductAngleM "k" (fun _ => .error { message := "boom", status := some 500 }) 800 =
      { result := .error { message := "boom", status := some 500 },
        attempts := 4, delays := [1000, 2000, 4000] } ∧
    generateProductAngleM "k" (fun _ => .error { message := "gone", status := some 404 }) 800 =
      { result := .error { message := "gone", status := some 404 },
        attempts := 1, delays := [] } := by
  constructor
  · exact (c3_retry_policy "k" _ 800 _ (by decide)).1 (by decide) (fun _ => rfl)
  · exact (c3_retry_policy "k" _ 800 _ (by decide)).2 (by decide) rfl

/-- Claim C4 (confirmed): for a batched call requesting numAngles views,
when zero images were extracted the call fails with the empty-result error;
when between 1 and numAngles - 1 images were extracted the missing slots
are padded by duplicating the last received image; when more than numAngles
were extracted the list is truncated to the first numAngles; whenever the
call succeeds the returned list has exactly numAngles entries. -/
theorem c4_batch_padding (imgs : List String) (n : Nat) :
    (imgs = [] → extractAndPad imgs n = .error emptyResultErr) ∧
    (imgs ≠ [] → imgs.length ≤ n →
      extractAndPad imgs n =
        .ok (imgs ++ List.replicate (n - imgs.length) (imgs.getLastD ""))) ∧
    (imgs ≠ [] → n < imgs.length → extractAndPad imgs n = .ok (imgs.take n)) ∧
    (∀ out, extractAndPad imgs n = .ok out → out.length = n) := by
  refine ⟨?_, ?_, ?_, ?_⟩
  · intro h
    subst h
    rfl
  · intro hne hle
    rw [extractAndPad, if_neg (by simpa using hne), padWithLast_eq imgs n hne]
    congr 1
    apply List.take_of_length_le
    simp
    omega
  · intro hne hlt
    rw [extractAndPad, if_neg (by simpa using hne), padWithLast, if_neg (by omega)]
  · intro out h
    rw [extractAndPad] at h
    by_cases hz : imgs.length = 0
    · simp [hz] at h
    · rw [if_neg hz] at h
      simp at h
      have hne : imgs ≠ [] := by
        intro hc
        subst hc
        simp at hz
      rw [padWithLast_eq imgs n hne] at h
      rw [← h]
      simp
      omega

/-- Witness for c4_batch_padding: one image requested as three comes back
padded to three copies; four images requested as three come back
truncated. -/
theorem c4_batch_padding_witness :
    extractAndPad ["a"] 3 = .ok ["a", "a", "a"] ∧
    extractAndPad ["a", "b", "c", "d"] 3 = .ok ["a", "b", "c"] ∧
    extractAndPad [] 3 = .error emptyResultErr := by
  refine ⟨?_, ?_, ?_⟩
  · have h := (c4_batch_padding ["a"] 3).2.1 (by decide) (by decide)
    simpa using h
  · have h := (c4_batch_padding ["a", "b", "c", "d"] 3).2.2.1 (by decide) (by decide)
    simpa using h
  · exact (c4_batch_padding [] 3).1 rfl

/-- Claim C6 (confirmed on the current services/gemini.ts, the repository
copy matching the call sites in App.tsx): every image surfaced by a
successful generation call went through resizeBase64Image, so it measures
exactly targetSize x targetSize; moreover whenever the first attempt
returns a raw image the call resolves to exactly the resize of that raw
image - unconditionally, with no check whether the model already returned
the right dimensions. The stale copy at src/services/gemini.ts lacks this
normalization; the copy whose generateProductAngle takes the apiKey
parameter (the one App.tsx compiles against) performs it on every success
path, including the Imagen branch. -/
theorem c6_unconditional_normalize (key : String)
    (oracle : Nat → Except GenError (Option Img)) (targetSize : Nat) (hkey : key ≠ "") :
    (∀ img, (generateProductAngleM key oracle targetSize).result = .ok img →
      img.width = targetSize ∧ img.height = targetSize) ∧
    (∀ raw, oracle 0 = .ok raw →
      generateProductAngleM key oracle targetSize =
        { result := resizeBase64Image raw targetSize, attempts := 1, delays := [] }) := by
  constructor
  · intro img h
    rw [generateProductAngleM, if_neg hkey] at h
    exact attemptFrom_ok_dims oracle targetSize 3 0 img h
  · intro raw hor
    rw [generateProductAngleM, if_neg hkey, attemptFrom]
    have htry : tryOnce oracle targetSize 0 = resizeBase64Image raw targetSize := by
      rw [tryOnce, hor]
    cases hres : resizeBase64Image raw targetSize with
    | ok img => rw [htry, hres]
    | error e =>
      rw [htry, hres]
      have he : e = decodeFailureErr := by
        cases raw with
        | none => simpa [resizeBase64Image, eq_comm] using hres
        | some i => simp [resizeBase64Image] at hres
      subst he
      simp [retryable, decodeFailureErr]

/-- Witness for c6_unconditional_normalize: a model that already returns an
800 x 800 image still goes through the resize, and a 1000 x 500 image is
forced to 800 x 800. -/
theorem c6_unconditional_normalize_witness :
    generateProductAngleM "k"
        (fun _ => .ok (some { width := 1000, height := 500, pix := "p" })) 800 =
      { result := .ok { width := 800, height := 800, pix := "p" },
        attempts := 1, delays := [] } ∧
    generateProductAngleM "k"
        (fun _ => .ok (some { width := 800, height := 800, pix := "q" })) 800 =
      { result := .ok { width := 800, height := 800, pix := "q" },
        attempts := 1, delays := [] } := by
  constructor
  · exact (c6_unconditional_normalize "k"
      (fun _ => .ok (some { width := 1000, height := 500, pix := "p" })) 800
      (by decide)).2 (some { width := 1000, height := 500, pix := "p" }) rfl
  · exact (c6_unconditional_normalize "k"
      (fun _ => .ok (some { width := 800, height := 800, pix := "q" })) 800
      (by decide)).2 (some { width := 800, height := 800, pix := "q" }) rfl

/-- Claim C7 (confirmed): the transcoder resizeBase64Image yields an image
of exactly targetSize x targetSize pixels for every decodable input, with
the output dimensions entirely independent of the input dimensions (no
aspect-ratio preservation: a non-square input is distorted onto the square
canvas), and it fails with the decode-failure error, returning no partial
result, when the input cannot be decoded. -/
theorem c7_square_resize (targetSize : Nat) :
    resizeBase64Image none targetSize = .error decodeFailureErr ∧
    (∀ i : Img, resizeBase64Image (some i) targetSize =
      .ok { width := targetSize, height := targetSize, pix := i.pix }) ∧
    (∀ w h w2 h2 : Nat, ∀ p : String,
      resizeBase64Image (some { width := w, height := h, pix := p }) targetSize =
        resizeBase64Image (some { width := w2, height := h2, pix := p }) targetSize) := by
  refine ⟨rfl, fun i => rfl, fun w h w2 h2 p => rfl⟩

/-! Helper lemmas for the orchestrator. -/

instance : Inhabited Img := ⟨{ width := 0, height := 0, pix := "" }⟩

instance : Inhabited ImageFile :=
  ⟨{ file := none, preview := none, status := .pending, name := "", path := "",
     angle := none }⟩

instance : Inhabited AngleConfig := ⟨{ name := "", prompt := "", enabled := false }⟩

instance : Inhabited Product := ⟨{ name := "", images := [], generatedImages := [] }⟩

@[simp] lemma angleSuccessEntry_status (pname : String) (a : AngleConfig) (img : Img) :
    (angleSuccessEntry pname a img).status = Status.completed := rfl

@[simp] lemma angleSuccessEntry_angle (pname : String) (a : AngleConfig) (img : Img) :
    (angleSuccessEntry pname a img).angle = some a.name := rfl

@[simp] lemma angleFailEntry_status (pname : String) (a : AngleConfig) :
    (angleFailEntry pname a).status = Status.failed := rfl

@[simp] lemma angleFailEntry_angle (pname : String) (a : AngleConfig) :
    (angleFailEntry pname a).angle = some a.name := rfl

@[simp] lemma requestLogSt_processed (st : RunSt) (pname : String) (a : AngleConfig) :
    (requestLogSt st pname a).processed = st.processed := rfl

@[simp] lemma requestLogSt_requestCount (st : RunSt) (pname : String) (a : AngleConfig) :
    (requestLogSt st pname a).requestCount = st.requestCount := rfl

@[simp] lemma requestLogSt_unitIdx (st : RunSt) (pname : String) (a : AngleConfig) :
    (requestLogSt st pname a).unitIdx = st.unitIdx := rfl

@[simp] lemma requestLogSt_stopRequested (st : RunSt) (pname : String) (a : AngleConfig) :
    (requestLogSt st pname a).stopRequested = st.stopRequested := rfl

@[simp] lemma unitDoneSt_processed (st : RunSt) (e : LogEntry) (cancel : Nat → Bool) :
    (unitDoneSt st e cancel).processed = st.processed + 1 := rfl

@[simp] lemma unitDoneSt_requestCount (st : RunSt) (e : LogEntry) (cancel : Nat → Bool) :
    (unitDoneSt st e cancel).requestCount = st.requestCount + 1 := rfl

@[simp] lemma unitDoneSt_unitIdx (st : RunSt) (e : LogEntry) (cancel : Nat → Bool) :
    (unitDoneSt st e cancel).unitIdx = st.unitIdx + 1 := rfl

@[simp] lemma unitDoneSt_stopRequested (st : RunSt) (e : LogEntry) (cancel : Nat → Bool) :
    (unitDoneSt st e cancel).stopRequested = (st.stopRequested || cancel st.unitIdx) := rfl

@[simp] lemma unitDoneAllSt_processed (st : RunSt) (cancel : Nat → Bool) :
    (unitDoneAllSt st cancel).processed = st.processed + 1 := rfl

@[simp] lemma unitDoneAllSt_requestCount (st : RunSt) (cancel : Nat → Bool) :
    (unitDoneAllSt st cancel).requestCount = st.requestCount := rfl

@[simp] lemma unitDoneAllSt_unitIdx (st : RunSt) (cancel : Nat → Bool) :
    (unitDoneAllSt st cancel).unitIdx = st.unitIdx + 1 := rfl

@[simp] lemma unitDoneAllSt_stopRequested (st : RunSt) (cancel : Nat → Bool) :
    (unitDoneAllSt st cancel).stopRequested = (st.stopRequested || cancel st.unitIdx) := rfl

@[simp] lemma unitDoneAllSt_log (st : RunSt) (cancel : Nat → Bool) :
    (unitDoneAllSt st cancel).log = st.log := rfl

@[simp] lemma unitDoneAllSt_apiStatus (st : RunSt) (cancel : Nat → Bool) :
    (unitDoneAllSt st cancel).apiStatus = st.apiStatus := rfl

@[simp] lemma stopObservedSt_processed (st : RunSt) :
    (stopObservedSt st).processed = st.processed := rfl

@[simp] lemma stopObservedSt_requestCount (st : RunSt) :
    (stopObservedSt st).requestCount = st.requestCount := rfl

@[simp] lemma stopObservedSt_unitIdx (st : RunSt) :
    (stopObservedSt st).unitIdx = st.unitIdx := rfl

@[simp] lemma stopObservedSt_stopRequested (st : RunSt) :
    (stopObservedSt st).stopRequested = false := rfl

@[simp] lemma stopObservedSt_apiStatus (st : RunSt) :
    (stopObservedSt st).apiStatus = "Stopped by user" := rfl

@[simp] lemma stopObservedAllSt_processed (st : RunSt) :
    (stopObservedAllSt st).processed = st.processed := rfl

@[simp] lemma stopObservedAllSt_requestCount (st : RunSt) :
    (stopObservedAllSt st).requestCount = st.requestCount := rfl

@[simp] lemma stopObservedAllSt_unitIdx (st : RunSt) :
    (stopObservedAllSt st).unitIdx = st.unitIdx := rfl

@[simp] lemma stopObservedAllSt_stopRequested (st : RunSt) :
    (stopObservedAllSt st).stopRequested = false := rfl

@[simp] lemma stopObservedAllSt_apiStatus (st : RunSt) :
    (stopObservedAllSt st).apiStatus = st.apiStatus := rfl

@[simp] lemma groupLogSt_processed (st : RunSt) (pname : String) :
    (groupLogSt st pname).processed = st.processed := rfl

@[simp] lemma groupLogSt_requestCount (st : RunSt) (pname : String) :
    (groupLogSt st pname).requestCount = st.requestCount := rfl

@[simp] lemma groupLogSt_unitIdx (st : RunSt) (pname : String) :
    (groupLogSt st pname).unitIdx = st.unitIdx := rfl

@[simp] lemma groupLogSt_stopRequested (st : RunSt) (pname : String) :
    (groupLogSt st pname).stopRequested = st.stopRequested := rfl

lemma groupResults_length (call : Nat → Except GenError Img) (pname : String) :
    ∀ (angs : List AngleConfig) (u : Nat),
      (groupResults call pname angs u).length = angs.length := by
  intro angs
  induction angs with
  | nil => intro u; rfl
  | cons a rest ih =>
    intro u
    cases hcall : call u <;> simp [groupResults, hcall, ih (u + 1)]

lemma groupResults_status (call : Nat → Except GenError Img) (pname : String) :
    ∀ (angs : List AngleConfig) (u i : Nat), i < angs.length →
      ((groupResults call pname angs u).getD i default).status =
        (match call (u + i) with
         | .ok _ => Status.completed
         | .error _ => Status.failed) ∧
      ((groupResults call pname angs u).getD i default).angle =
        some ((angs.getD i default).name) := by
  intro angs
  induction angs with
  | nil => intro u i hi; simp at hi
  | cons a rest ih =>
    intro u i hi
    cases i with
    | zero => cases hcall : call u <;> simp [groupResults, hcall]
    | succ j =>
      have hj : j < rest.length := by simpa using hi
      have := ih (u + 1) j hj
      cases hcall : call u <;>
        simpa [groupResults, hcall, Nat.add_assoc, Nat.add_comm 1 j] using this

lemma runAngles_noCancel (call : Nat → Except GenError Img) (cancel : Nat → Bool)
    (stopCaptured : Bool) (pname : String) (hsc : stopCaptured = false) :
    ∀ (angs : List AngleConfig) (st : RunSt) (acc : List ImageFile),
      st.stopRequested = false →
      (∀ j, j < angs.length → cancel (st.unitIdx + j) = false) →
      (runAngles call cancel stopCaptured pname angs st acc).2.2 = false ∧
      (runAngles call cancel stopCaptured pname angs st acc).2.1 =
        acc ++ groupResults call pname angs st.unitIdx ∧
      (runAngles call cancel stopCaptured pname angs st acc).1.processed =
        st.processed + angs.length ∧
      (runAngles call cancel stopCaptured pname angs st acc).1.requestCount =
        st.requestCount + angs.length ∧
      (runAngles call cancel stopCaptured pname angs st acc).1.unitIdx =
        st.unitIdx + angs.length ∧
      (runAngles call cancel stopCaptured pname angs st acc).1.stopRequested = false := by
  subst hsc
  intro angs
  induction angs with
  | nil =>
    intro st acc h0 _
    simp [runAngles, groupResults, h0]
  | cons a rest ih =>
    intro st acc h0 hc
    have hc0 : cancel st.unitIdx = false := by simpa using hc 0 (by simp)
    cases hcall : call st.unitIdx with
    | ok img =>
      have key := ih
        (unitDoneSt (requestLogSt st pname a)
          { msg := a.name ++ " completed", kind := .success } cancel)
        (acc ++ [angleSuccessEntry pname a img])
        (by simp [h0, hc0])
        (by
          intro j hj
          simp only [unitDoneSt_unitIdx, requestLogSt_unitIdx]
          have h1 := hc (j + 1) (by simp; omega)
          have h2 : st.unitIdx + 1 + j = st.unitIdx + (j + 1) := by omega
          rw [h2]
          exact h1)
      simp only [unitDoneSt_processed, unitDoneSt_requestCount, unitDoneSt_unitIdx,
        requestLogSt_processed, requestLogSt_requestCount, requestLogSt_unitIdx] at key
      simp only [runAngles, h0, Bool.false_eq_true, if_false, requestLogSt_unitIdx, hcall]
      refine ⟨key.1, ?_, ?_, ?_, ?_, key.2.2.2.2.2⟩
      · rw [key.2.1]
        simp [groupResults, hcall]
      · rw [key.2.2.1]; simp only [List.length_cons]; omega
      · rw [key.2.2.2.1]; simp only [List.length_cons]; omega
      · rw [key.2.2.2.2.1]; simp only [List.length_cons]; omega
    | error e =>
      have key := ih
        (unitDoneSt (requestLogSt st pname a)
          { msg := a.name ++ " failed: " ++ e.message, kind := .error } cancel)
        (acc ++ [angleFailEntry pname a])
        (by simp [h0, hc0])
        (by
          intro j hj
          simp only [unitDoneSt_unitIdx, requestLogSt_unitIdx]
          have h1 := hc (j + 1) (by simp; omega)
          have h2 : st.unitIdx + 1 + j = st.unitIdx + (j + 1) := by omega
          rw [h2]
          exact h1)
      simp only [unitDoneSt_processed, unitDoneSt_requestCount, unitDoneSt_unitIdx,
        requestLogSt_processed, requestLogSt_requestCount, requestLogSt_unitIdx] at key
      simp only [runAngles, h0, Bool.false_eq_true, if_false, requestLogSt_unitIdx, hcall]
      refine ⟨key.1, ?_, ?_, ?_, ?_, key.2.2.2.2.2⟩
      · rw [key.2.1]
        simp [groupResults, hcall]
      · rw [key.2.2.1]; simp only [List.length_cons]; omega
      · rw [key.2.2.2.1]; simp only [List.length_cons]; omega
      · rw [key.2.2.2.2.1]; simp only [List.length_cons]; omega

lemma runGroups_noCancel (call : Nat → Except GenError Img) (cancel : Nat → Bool)
    (stopCaptured : Bool) (angles : List AngleConfig) (hsc : stopCaptured = false) :
    ∀ (gs : List Product) (gi : Nat) (catalog : List Product) (st : RunSt),
      st.stopRequested = false →
      (∀ j, j < gs.length * angles.length → cancel (st.unitIdx + j) = false) →
      (runGroups call cancel stopCaptured angles gs gi catalog st).2.2 = false ∧
      (runGroups call cancel stopCaptured angles gs gi catalog st).1 =
        commitGroups call angles catalog gi gs st.unitIdx ∧
      (runGroups call cancel stopCaptured angles gs gi catalog st).2.1.processed =
        st.processed + gs.length * angles.length ∧
      (runGroups call cancel stopCaptured angles gs gi catalog st).2.1.requestCount =
        st.requestCount + gs.length * angles.length ∧
      (runGroups call cancel stopCaptured angles gs gi catalog st).2.1.unitIdx =
        st.unitIdx + gs.length * angles.length ∧
      (runGroups call cancel stopCaptured angles gs gi catalog st).2.1.stopRequested
        = false := by
  subst hsc
  intro gs
  induction gs with
  | nil =>
    intro gi catalog st h0 _
    simp [runGroups, commitGroups, h0]
  | cons p rest ih =>
    intro gi catalog st h0 hc
    have hang := runAngles_noCancel call cancel false p.name rfl angles
      (groupLogSt st p.name) []
      (by simp [h0])
      (by
        intro j hj
        simp only [groupLogSt_unitIdx]
        exact hc j (by simp only [List.length_cons, Nat.succ_mul]; omega))
    rcases hrun : runAngles call cancel false p.name angles (groupLogSt st p.name) []
      with ⟨st2, gen, stopped⟩
    rw [hrun] at hang
    simp only [groupLogSt_processed, groupLogSt_requestCount, groupLogSt_unitIdx] at hang
    obtain ⟨hstop2, hgen, hp2, hr2, hu2, hs2⟩ := hang
    simp only [List.nil_append] at hgen
    subst hstop2
    have key := ih (gi + 1)
      (catalog.set gi { p with generatedImages := gen }) st2 hs2
      (by
        intro j hj
        rw [hu2]
        have h1 := hc (angles.length + j)
          (by simp only [List.length_cons, Nat.succ_mul]; omega)
        have h2 : st.unitIdx + angles.length + j = st.unitIdx + (angles.length + j) := by omega
        rw [h2]
        exact h1)
    simp only [runGroups, h0, Bool.false_eq_true, if_false, hrun]
    refine ⟨key.1, ?_, ?_, ?_, ?_, key.2.2.2.2.2⟩
    · rw [key.2.1, hgen, hu2]
      simp only [commitGroups]
    · rw [key.2.2.1, hp2]
      simp only [List.length_cons, Nat.succ_mul]
      omega
    · rw [key.2.2.2.1, hr2]
      simp only [List.length_cons, Nat.succ_mul]
      omega
    · rw [key.2.2.2.2.1, hu2]
      simp only [List.length_cons, Nat.succ_mul]
      omega

lemma runAnglesAll_noCancel (call : Nat → Except GenError Img) (cancel : Nat → Bool)
    (stopCaptured : Bool) (pname : String) (hsc : stopCaptured = false) :
    ∀ (angs : List AngleConfig) (st : RunSt) (acc : List ImageFile),
      st.stopRequested = false →
      (∀ j, j < angs.length → cancel (st.unitIdx + j) = false) →
      (runAnglesAll call cancel stopCaptured pname angs st acc).2.2 = false ∧
      (runAnglesAll call cancel stopCaptured pname angs st acc).2.1 =
        acc ++ groupResults call pname angs st.unitIdx ∧
      (runAnglesAll call cancel stopCaptured pname angs st acc).1.processed =
        st.processed + angs.length ∧
      (runAnglesAll call cancel stopCaptured pname angs st acc).1.requestCount =
        st.requestCount ∧
      (runAnglesAll call cancel stopCaptured pname angs st acc).1.unitIdx =
        st.unitIdx + angs.length ∧
      (runAnglesAll call cancel stopCaptured pname angs st acc).1.stopRequested = false ∧
      (runAnglesAll call cancel stopCaptured pname angs st acc).1.log = st.log := by
  subst hsc
  intro angs
  induction angs with
  | nil =>
    intro st acc h0 _
    simp [runAnglesAll, groupResults, h0]
  | cons a rest ih =>
    intro st acc h0 hc
    have hc0 : cancel st.unitIdx = false := by simpa using hc 0 (by simp)
    cases hcall : call st.unitIdx with
    | ok img =>
      have key := ih (unitDoneAllSt st cancel) (acc ++ [angleSuccessEntry pname a img])
        (by simp [h0, hc0])
        (by
          intro j hj
          simp only [unitDoneAllSt_unitIdx]
          have h1 := hc (j + 1) (by simp; omega)
          have h2 : st.unitIdx + 1 + j = st.unitIdx + (j + 1) := by omega
          rw [h2]
          exact h1)
      simp only [unitDoneAllSt_processed, unitDoneAllSt_requestCount, unitDoneAllSt_unitIdx,
        unitDoneAllSt_log] at key
      simp only [runAnglesAll, h0, Bool.false_eq_true, if_false, hcall]
      refine ⟨key.1, ?_, ?_, key.2.2.2.1, ?_, key.2.2.2.2.2.1, key.2.2.2.2.2.2⟩
      · rw [key.2.1]
        simp [groupResults, hcall]
      · rw [key.2.2.1]; simp only [List.length_cons]; omega
      · rw [key.2.2.2.2.1]; simp only [List.length_cons]; omega
    | error e =>
      have key := ih (unitDoneAllSt st cancel) (acc ++ [angleFailEntry pname a])
        (by simp [h0, hc0])
        (by
          intro j hj
          simp only [unitDoneAllSt_unitIdx]
          have h1 := hc (j + 1) (by simp; omega)
          have h2 : st.unitIdx + 1 + j = st.unitIdx + (j + 1) := by omega
          rw [h2]
          exact h1)
      simp only [unitDoneAllSt_processed, unitDoneAllSt_requestCount, unitDoneAllSt_unitIdx,
        unitDoneAllSt_log] at key
      simp only [runAnglesAll, h0, Bool.false_eq_true, if_false, hcall]
      refine ⟨key.1, ?_, ?_, key.2.2.2.1, ?_, key.2.2.2.2.2.1, key.2.2.2.2.2.2⟩
      · rw [key.2.1]
        simp [groupResults, hcall]
      · rw [key.2.2.1]; simp only [List.length_cons]; omega
      · rw [key.2.2.2.2.1]; simp only [List.length_cons]; omega

lemma runGroupsAll_noCancel (call : Nat → Except GenError Img) (cancel : Nat → Bool)
    (stopCaptured : Bool) (angles : List AngleConfig) (hsc : stopCaptured = false) :
    ∀ (gs : List Product) (gi : Nat) (catalog : List Product) (st : RunSt),
      st.stopRequested = false →
      (∀ j, j < gs.length * angles.length → cancel (st.unitIdx + j) = false) →
      (runGroupsAll call cancel stopCaptured angles gs gi catalog st).2.2 = false ∧
      (runGroupsAll call cancel stopCaptured angles gs gi catalog st).1 =
        commitGroups call angles catalog gi gs st.unitIdx ∧
      (runGroupsAll call cancel stopCaptured angles gs gi catalog st).2.1.processed =
        st.processed + gs.length * angles.length ∧
      (runGroupsAll call cancel stopCaptured angles gs gi catalog st).2.1.requestCount =
        st.requestCount ∧
      (runGroupsAll call cancel stopCaptured angles gs gi catalog st).2.1.unitIdx =
        st.unitIdx + gs.length * angles.length ∧
      (runGroupsAll call cancel stopCaptured angles gs gi catalog st).2.1.stopRequested
        = false := by
  subst hsc
  intro gs
  induction gs with
  | nil =>
    intro gi catalog st h0 _
    simp [runGroupsAll, commitGroups, h0]
  | cons p rest ih =>
    intro gi catalog st h0 hc
    have hang := runAnglesAll_noCancel call cancel false p.name rfl angles st [] h0
      (by
        intro j hj
        exact hc j (by simp only [List.length_cons, Nat.succ_mul]; omega))
    rcases hrun : runAnglesAll call cancel false p.name angles st []
      with ⟨st2, gen, stopped⟩
    rw [hrun] at hang
    obtain ⟨hstop2, hgen, hp2, hr2, hu2, hs2, _⟩ := hang
    simp only [List.nil_append] at hgen
    subst hstop2
    have key := ih (gi + 1)
      (catalog.set gi { p with generatedImages := gen }) st2 hs2
      (by
        intro j hj
        rw [hu2]
        have h1 := hc (angles.length + j)
          (by simp only [List.length_cons, Nat.succ_mul]; omega)
        have h2 : st.unitIdx + angles.length + j = st.unitIdx + (angles.length + j) := by omega
        rw [h2]
        exact h1)
    simp only [runGroupsAll, h0, Bool.false_eq_true, if_false, hrun]
    refine ⟨key.1, ?_, ?_, ?_, ?_, key.2.2.2.2.2⟩
    · rw [key.2.1, hgen, hu2]
      simp only [commitGroups]
    · rw [key.2.2.1, hp2]
      simp only [List.length_cons, Nat.succ_mul]
      omega
    · rw [key.2.2.2.1, hr2]
    · rw [key.2.2.2.2.1, hu2]
      simp only [List.length_cons, Nat.succ_mul]
      omega

lemma commitGroups_length (call : Nat → Except GenError Img) (angles : List AngleConfig) :
    ∀ (gs : List Product) (gi u : Nat) (catalog : List Product),
      (commitGroups call angles catalog gi gs u).length = catalog.length := by
  intro gs
  induction gs with
  | nil => intro gi u catalog; rfl
  | cons p rest ih =>
    intro gi u catalog
    simp [commitGroups, ih]

lemma commitGroups_outside (call : Nat → Except GenError Img) (angles : List AngleConfig) :
    ∀ (gs : List Product) (gi u : Nat) (catalog : List Product) (j : Nat),
      (j < gi ∨ gi + gs.length ≤ j) →
      (commitGroups call angles catalog gi gs u)[j]? = catalog[j]? := by
  intro gs
  induction gs with
  | nil => intro gi u catalog j _; rfl
  | cons p rest ih =>
    intro gi u catalog j hj
    have h1 : (j < gi + 1 ∨ gi + 1 + rest.length ≤ j) := by
      simp only [List.length_cons] at hj
      omega
    rw [commitGroups, ih (gi + 1) (u + angles.length) _ j h1]
    apply List.getElem?_set_ne
    simp only [List.length_cons] at hj
    omega

lemma commitGroups_inside (call : Nat → Except GenError Img) (angles : List AngleConfig) :
    ∀ (gs : List Product) (gi u : Nat) (catalog : List Product) (j : Nat),
      gi + gs.length ≤ catalog.length → j < gs.length →
      (commitGroups call angles catalog gi gs u)[gi + j]? =
        some { gs.getD j default with
               generatedImages :=
                 groupResults call (gs.getD j default).name angles
                   (u + j * angles.length) } := by
  intro gs
  induction gs with
  | nil => intro gi u catalog j _ hj; simp at hj
  | cons p rest ih =>
    intro gi u catalog j hlen hj
    cases j with
    | zero =>
      rw [commitGroups]
      have houts : (commitGroups call angles
          (catalog.set gi { p with generatedImages := groupResults call p.name angles u })
          (gi + 1) rest (u + angles.length))[gi]? =
          (catalog.set gi { p with generatedImages := groupResults call p.name angles u })[gi]? := by
        apply commitGroups_outside
        omega
      simp only [Nat.add_zero]
      rw [houts]
      rw [List.getElem?_set_eq_of_lt]
      · simp [commitGroups]
      · simp only [List.length_cons] at hlen
        omega
    | succ jj =>
      rw [commitGroups]
      have h2 : gi + (jj + 1) = (gi + 1) + jj := by omega
      rw [h2]
      rw [ih (gi + 1) (u + angles.length) _ jj
        (by simp only [List.length_cons] at hlen; simp [List.length_set]; omega)
        (by simpa using hj)]
      simp only [List.getD_cons_succ]
      have h3 : u + angles.length + jj * angles.length = u + (jj + 1) * angles.length := by
        simp only [Nat.succ_mul]
        omega
      rw [h3]

@[simp] lemma batchEntryRunSt_processed (s : AppState) : (batchEntryRunSt s).processed = 0 := rfl

@[simp] lemma batchEntryRunSt_requestCount (s : AppState) :
    (batchEntryRunSt s).requestCount = 0 := rfl

@[simp] lemma batchEntryRunSt_unitIdx (s : AppState) : (batchEntryRunSt s).unitIdx = 0 := rfl

@[simp] lemma batchEntryRunSt_stopRequested (s : AppState) :
    (batchEntryRunSt s).stopRequested = s.stopRequested := rfl

@[simp] lemma allEntryRunSt_processed (s : AppState) : (allEntryRunSt s).processed = 0 := rfl

@[simp] lemma allEntryRunSt_requestCount (s : AppState) :
    (allEntryRunSt s).requestCount = s.requestCount := rfl

@[simp] lemma allEntryRunSt_unitIdx (s : AppState) : (allEntryRunSt s).unitIdx = 0 := rfl

@[simp] lemma allEntryRunSt_stopRequested (s : AppState) :
    (allEntryRunSt s).stopRequested = s.stopRequested := rfl

lemma handleGenerateBatch_noCancel (s : AppState) (idx bs : Nat)
    (angles : List AngleConfig) (call : Nat → Except GenError Img)
    (hstop : s.stopRequested = false) (hne : s.products ≠ []) :
    (handleGenerateBatch s idx bs angles call (fun _ => false)).totalToProcess =
      ((s.products.drop idx).take (min (idx + bs) s.products.length - idx)).length *
        (angles.filter (·.enabled)).length ∧
    (handleGenerateBatch s idx bs angles call (fun _ => false)).processed =
      ((s.products.drop idx).take (min (idx + bs) s.products.length - idx)).length *
        (angles.filter (·.enabled)).length ∧
    (handleGenerateBatch s idx bs angles call (fun _ => false)).requestCount =
      ((s.products.drop idx).take (min (idx + bs) s.products.length - idx)).length *
        (angles.filter (·.enabled)).length ∧
    (handleGenerateBatch s idx bs angles call (fun _ => false)).status = .completed ∧
    (handleGenerateBatch s idx bs angles call (fun _ => false)).stopRequested = false ∧
    (handleGenerateBatch s idx bs angles call (fun _ => false)).products =
      commitGroups call (angles.filter (·.enabled)) s.products idx
        ((s.products.drop idx).take (min (idx + bs) s.products.length - idx)) 0 := by
  have hlen : ¬ s.products.length = 0 := by
    simpa [List.length_eq_zero] using hne
  have hrun := runGroups_noCancel call (fun _ => false) s.stopRequested
    (angles.filter (·.enabled)) hstop
    ((s.products.drop idx).take (min (idx + bs) s.products.length - idx)) idx
    s.products (batchEntryRunSt s)
    (by simp [hstop]) (by intro j _; rfl)
  rcases hres : runGroups call (fun _ => false) s.stopRequested
      (angles.filter (·.enabled))
      ((s.products.drop idx).take (min (idx + bs) s.products.length - idx)) idx
      s.products (batchEntryRunSt s) with ⟨catalog, stf, stopped⟩
  rw [hres] at hrun
  simp only [batchEntryRunSt_processed, batchEntryRunSt_requestCount,
    batchEntryRunSt_unitIdx] at hrun
  obtain ⟨hstop2, hcat, hp, hr, _, hs⟩ := hrun
  subst hstop2
  refine ⟨?_, ?_, ?_, ?_, ?_, ?_⟩ <;>
    simp only [handleGenerateBatch, hlen, if_false, hres] <;>
    simp [hp, hr, hs, hcat]

lemma handleGenerateAll_noCancel (s : AppState) (angles : List AngleConfig)
    (call : Nat → Except GenError Img)
    (hstop : s.stopRequested = false) (hne : s.products ≠ []) :
    (handleGenerateAll s angles call (fun _ => false)).totalToProcess =
      s.products.length * (angles.filter (·.enabled)).length ∧
    (handleGenerateAll s angles call (fun _ => false)).processed =
      s.products.length * (angles.filter (·.enabled)).length ∧
    (handleGenerateAll s angles call (fun _ => false)).requestCount = s.requestCount ∧
    (handleGenerateAll s angles call (fun _ => false)).status = .completed ∧
    (handleGenerateAll s angles call (fun _ => false)).stopRequested = false ∧
    (handleGenerateAll s angles call (fun _ => false)).products =
      commitGroups call (angles.filter (·.enabled)) s.products 0 s.products 0 := by
  have hlen : ¬ s.products.length = 0 := by
    simpa [List.length_eq_zero] using hne
  have hrun := runGroupsAll_noCancel call (fun _ => false) s.stopRequested
    (angles.filter (·.enabled)) hstop
    s.products 0 s.products (allEntryRunSt s)
    (by simp [hstop]) (by intro j _; rfl)
  rcases hres : runGroupsAll call (fun _ => false) s.stopRequested
      (angles.filter (·.enabled))
      s.products 0 s.products (allEntryRunSt s) with ⟨catalog, stf, stopped⟩
  rw [hres] at hrun
  simp only [allEntryRunSt_processed, allEntryRunSt_requestCount,
    allEntryRunSt_unitIdx] at hrun
  obtain ⟨hstop2, hcat, hp, hr, _, hs⟩ := hrun
  subst hstop2
  refine ⟨?_, ?_, ?_, ?_, ?_, ?_⟩ <;>
    simp only [handleGenerateAll, hlen, if_false, hres] <;>
    simp [hp, hr, hs, hcat]

/-! Lemmas about runs started with the captured flag false during which the
environment sets the cancellation flag. The in-loop polls read only the
captured value, so such a run completes every unit regardless of cancel;
the set reaches only the ambient flag, where it is latched. -/

lemma runAngles_complete (call : Nat → Except GenError Img) (cancel : Nat → Bool)
    (stopCaptured : Bool) (pname : String) (hsc : stopCaptured = false) :
    ∀ (angs : List AngleConfig) (st : RunSt) (acc : List ImageFile),
      (runAngles call cancel stopCaptured pname angs st acc).2.2 = false ∧
      (runAngles call cancel stopCaptured pname angs st acc).2.1 =
        acc ++ groupResults call pname angs st.unitIdx ∧
      (runAngles call cancel stopCaptured pname angs st acc).1.processed =
        st.processed + angs.length ∧
      (runAngles call cancel stopCaptured pname angs st acc).1.requestCount =
        st.requestCount + angs.length ∧
      (runAngles call cancel stopCaptured pname angs st acc).1.unitIdx =
        st.unitIdx + angs.length := by
  subst hsc
  intro angs
  induction angs with
  | nil =>
    intro st acc
    simp [runAngles, groupResults]
  | cons a rest ih =>
    intro st acc
    cases hcall : call st.unitIdx with
    | ok img =>
      have key := ih
        (unitDoneSt (requestLogSt st pname a)
          { msg := a.name ++ " completed", kind := .success } cancel)
        (acc ++ [angleSuccessEntry pname a img])
      simp only [unitDoneSt_processed, unitDoneSt_requestCount, unitDoneSt_unitIdx,
        requestLogSt_processed, requestLogSt_requestCount, requestLogSt_unitIdx] at key
      simp only [runAngles, Bool.false_eq_true, if_false, requestLogSt_unitIdx, hcall]
      refine ⟨key.1, ?_, ?_, ?_, ?_⟩
      · rw [key.2.1]
        simp [groupResults, hcall]
      · rw [key.2.2.1]; simp only [List.length_cons]; omega
      · rw [key.2.2.2.1]; simp only [List.length_cons]; omega
      · rw [key.2.2.2.2]; simp only [List.length_cons]; omega
    | error e =>
      have key := ih
        (unitDoneSt (requestLogSt st pname a)
          { msg := a.name ++ " failed: " ++ e.message, kind := .error } cancel)
        (acc ++ [angleFailEntry pname a])
      simp only [unitDoneSt_processed, unitDoneSt_requestCount, unitDoneSt_unitIdx,
        requestLogSt_processed, requestLogSt_requestCount, requestLogSt_unitIdx] at key
      simp only [runAngles, Bool.false_eq_true, if_false, requestLogSt_unitIdx, hcall]
      refine ⟨key.1, ?_, ?_, ?_, ?_⟩
      · rw [key.2.1]
        simp [groupResults, hcall]
      · rw [key.2.2.1]; simp only [List.length_cons]; omega
      · rw [key.2.2.2.1]; simp only [List.length_cons]; omega
      · rw [key.2.2.2.2]; simp only [List.length_cons]; omega

lemma runAngles_flag_mono (call : Nat → Except GenError Img) (cancel : Nat → Bool)
    (pname : String) :
    ∀ (angs : List AngleConfig) (st : RunSt) (acc : List ImageFile),
      st.stopRequested = true →
      (runAngles call cancel false pname angs st acc).1.stopRequested = true := by
  intro angs
  induction angs with
  | nil =>
    intro st acc h1
    simpa [runAngles] using h1
  | cons a rest ih =>
    intro st acc h1
    cases hcall : call st.unitIdx with
    | ok img =>
      simp only [runAngles, Bool.false_eq_true, if_false, requestLogSt_unitIdx, hcall]
      exact ih _ _ (by simp [h1])
    | error e =>
      simp only [runAngles, Bool.false_eq_true, if_false, requestLogSt_unitIdx, hcall]
      exact ih _ _ (by simp [h1])

lemma runAngles_flag_hit (call : Nat → Except GenError Img) (cancel : Nat → Bool)
    (pname : String) (k : Nat) (hck : cancel k = true) :
    ∀ (angs : List AngleConfig) (st : RunSt) (acc : List ImageFile),
      st.unitIdx ≤ k → k < st.unitIdx + angs.length →
      (runAngles call cancel false pname angs st acc).1.stopRequested = true := by
  intro angs
  induction angs with
  | nil =>
    intro st acc hle hlt
    simp only [List.length_nil] at hlt
    omega
  | cons a rest ih =>
    intro st acc hle hlt
    simp only [List.length_cons] at hlt
    by_cases hk : st.unitIdx = k
    · have hck2 : cancel st.unitIdx = true := by rw [hk]; exact hck
      cases hcall : call st.unitIdx with
      | ok img =>
        simp only [runAngles, Bool.false_eq_true, if_false, requestLogSt_unitIdx, hcall]
        exact runAngles_flag_mono call cancel pname rest _ _ (by simp [hck2])
      | error e =>
        simp only [runAngles, Bool.false_eq_true, if_false, requestLogSt_unitIdx, hcall]
        exact runAngles_flag_mono call cancel pname rest _ _ (by simp [hck2])
    · cases hcall : call st.unitIdx with
      | ok img =>
        simp only [runAngles, Bool.false_eq_true, if_false, requestLogSt_unitIdx, hcall]
        exact ih _ _ (by simp; omega) (by simp; omega)
      | error e =>
        simp only [runAngles, Bool.false_eq_true, if_false, requestLogSt_unitIdx, hcall]
        exact ih _ _ (by simp; omega) (by simp; omega)

lemma runGroups_flag_mono (call : Nat → Except GenError Img) (cancel : Nat → Bool)
    (angles : List AngleConfig) :
    ∀ (gs : List Product) (gi : Nat) (catalog : List Product) (st : RunSt),
      st.stopRequested = true →
      (runGroups call cancel false angles gs gi catalog st).2.1.stopRequested = true := by
  intro gs
  induction gs with
  | nil =>
    intro gi catalog st h1
    simpa [runGroups] using h1
  | cons p rest ih =>
    intro gi catalog st h1
    have hang := runAngles_complete call cancel false p.name rfl angles
      (groupLogSt st p.name) []
    have hmono := runAngles_flag_mono call cancel p.name angles
      (groupLogSt st p.name) [] (by simp [h1])
    rcases hrun : runAngles call cancel false p.name angles (groupLogSt st p.name) []
      with ⟨st2, gen, stopped⟩
    rw [hrun] at hang hmono
    have hstop2 : stopped = false := hang.1
    subst hstop2
    simp only [runGroups, Bool.false_eq_true, if_false, hrun]
    exact ih _ _ st2 hmono

lemma runGroups_flag_hit (call : Nat → Except GenError Img) (cancel : Nat → Bool)
    (stopCaptured : Bool) (angles : List AngleConfig) (k : Nat)
    (hsc : stopCaptured = false) (hck : cancel k = true) :
    ∀ (gs : List Product) (gi : Nat) (catalog : List Product) (st : RunSt),
      st.unitIdx ≤ k → k < st.unitIdx + gs.length * angles.length →
      (runGroups call cancel stopCaptured angles gs gi catalog st).2.1.stopRequested
        = true := by
  subst hsc
  intro gs
  induction gs with
  | nil =>
    intro gi catalog st hle hlt
    simp only [List.length_nil, Nat.zero_mul] at hlt
    omega
  | cons p rest ih =>
    intro gi catalog st hle hlt
    simp only [List.length_cons, Nat.succ_mul] at hlt
    have hang := runAngles_complete call cancel false p.name rfl angles
      (groupLogSt st p.name) []
    rcases hrun : runAngles call cancel false p.name angles (groupLogSt st p.name) []
      with ⟨st2, gen, stopped⟩
    rw [hrun] at hang
    have hstop2 : stopped = false := hang.1
    subst hstop2
    have hu2 : st2.unitIdx = st.unitIdx + angles.length := by
      simpa using hang.2.2.2.2
    simp only [runGroups, Bool.false_eq_true, if_false, hrun]
    by_cases hin : k < st.unitIdx + angles.length
    · have hflag : st2.stopRequested = true := by
        have h := runAngles_flag_hit call cancel p.name k hck angles
          (groupLogSt st p.name) [] (by simpa using hle) (by simpa using hin)
        rw [hrun] at h
        exact h
      exact runGroups_flag_mono call cancel angles rest (gi + 1) _ st2 hflag
    · exact ih (gi + 1) _ st2 (by omega) (by rw [hu2]; omega)

lemma runGroups_complete (call : Nat → Except GenError Img) (cancel : Nat → Bool)
    (stopCaptured : Bool) (angles : List AngleConfig) (hsc : stopCaptured = false) :
    ∀ (gs : List Product) (gi : Nat) (catalog : List Product) (st : RunSt),
      (runGroups call cancel stopCaptured angles gs gi catalog st).2.2 = false ∧
      (runGroups call cancel stopCaptured angles gs gi catalog st).1 =
        commitGroups call angles catalog gi gs st.unitIdx ∧
      (runGroups call cancel stopCaptured angles gs gi catalog st).2.1.processed =
        st.processed + gs.length * angles.length ∧
      (runGroups call cancel stopCaptured angles gs gi catalog st).2.1.requestCount =
        st.requestCount + gs.length * angles.length ∧
      (runGroups call cancel stopCaptured angles gs gi catalog st).2.1.unitIdx =
        st.unitIdx + gs.length * angles.length := by
  subst hsc
  intro gs
  induction gs with
  | nil =>
    intro gi catalog st
    simp [runGroups, commitGroups]
  | cons p rest ih =>
    intro gi catalog st
    have hang := runAngles_complete call cancel false p.name rfl angles
      (groupLogSt st p.name) []
    rcases hrun : runAngles call cancel false p.name angles (groupLogSt st p.name) []
      with ⟨st2, gen, stopped⟩
    rw [hrun] at hang
    simp only [groupLogSt_processed, groupLogSt_requestCount, groupLogSt_unitIdx] at hang
    obtain ⟨hstop2, hgen, hp2, hr2, hu2⟩ := hang
    simp only [List.nil_append] at hgen
    subst hstop2
    have key := ih (gi + 1)
      (catalog.set gi { p with generatedImages := gen }) st2
    simp only [runGroups, Bool.false_eq_true, if_false, hrun]
    refine ⟨key.1, ?_, ?_, ?_, ?_⟩
    · rw [key.2.1, hgen, hu2]
      simp only [commitGroups]
    · rw [key.2.2.1, hp2]
      simp only [List.length_cons, Nat.succ_mul]
      omega
    · rw [key.2.2.2.1, hr2]
      simp only [List.length_cons, Nat.succ_mul]
      omega
    · rw [key.2.2.2.2, hu2]
      simp only [List.length_cons, Nat.succ_mul]
      omega


/-! Concrete fixtures used by counterexamples and witnesses. -/

def angleFront : AngleConfig :=
  { name := "Front", prompt := "Front view of the product", enabled := true }

def angleBack : AngleConfig :=
  { name := "Back", prompt := "Back view of the product", enabled := true }

def productRed : Product := { name := "Red", images := [], generatedImages := [] }

def sRed : AppState :=
  { products := [productRed], status := .idle, errorMsg := "", totalToProcess := 0,
    processed := 0, requestCount := 0, stopRequested := false, log := [], apiStatus := "" }

lemma groupResults_const_error (e : GenError) (pname : String) :
    ∀ (angs : List AngleConfig) (u : Nat) (x : ImageFile),
      x ∈ groupResults (fun _ => .error e) pname angs u → x.status = .failed := by
  intro angs
  induction angs with
  | nil => intro u x hx; simp [groupResults] at hx
  | cons a rest ih =>
    intro u x hx
    simp only [groupResults, List.mem_cons] at hx
    rcases hx with h | h
    · subst h; rfl
    · exact ih (u + 1) x h

/-- A previous-run result entry used to exhibit retention of old results. -/
def oldEntry : ImageFile :=
  { file := none, preview := none, status := .completed, name := "Old.png",
    path := "Red/Old.png", angle := some "Old" }

/-- The Red group carrying a previous-run result. -/
def productRedOld : Product := { name := "Red", images := [], generatedImages := [oldEntry] }

/-- App state with one group that has previous results. -/
def sRedOld : AppState := { sRed with products := [productRedOld] }

/-! Theorem for the cancellation claim C1. -/

/-- Claim C1 (code bug): the claim states the intended STOP behavior - a
flag set while unit k+1 of N is in flight should be observed at the next
poll, stopping the run with no later unit attempted, the flag cleared and
the stopped status recorded. The source cannot exhibit this behavior on
any input: the in-loop polls of the async handler read the stopRequested
value captured by its closure when the run started, so a
setStopRequested(true) issued while the run is in flight (and the STOP
button is rendered only while the run is in flight) is never observed by
that run. This theorem proves the actual behavior: for every run entered
with the captured flag false, no matter which unit k the cancellation is
requested at, every one of the N units is attempted, each group is
committed to the catalog in full, the processed and request counters end
at 100 percent of totalUnits and the run finishes with the completed
status - identical to a run with no cancellation at all, except that the
ambient flag is left latched true at run end (this leftover value is what
stops the NEXT run at its very first poll, cf. claim C8). -/
theorem c1_cancellation (s : AppState) (idx bs : Nat) (angles : List AngleConfig)
    (call : Nat → Except GenError Img) (cancel : Nat → Bool) (k : Nat)
    (hstop : s.stopRequested = false) (hck : cancel k = true)
    (hk : k <
      ((s.products.drop idx).take (min (idx + bs) s.products.length - idx)).length *
        (angles.filter (·.enabled)).length) :
    (handleGenerateBatch s idx bs angles call cancel).status = .completed ∧
    (handleGenerateBatch s idx bs angles call cancel).apiStatus = "Completed" ∧
    (handleGenerateBatch s idx bs angles call cancel).stopRequested = true ∧
    (handleGenerateBatch s idx bs angles call cancel).processed =
      ((s.products.drop idx).take (min (idx + bs) s.products.length - idx)).length *
        (angles.filter (·.enabled)).length ∧
    (handleGenerateBatch s idx bs angles call cancel).requestCount =
      ((s.products.drop idx).take (min (idx + bs) s.products.length - idx)).length *
        (angles.filter (·.enabled)).length ∧
    (handleGenerateBatch s idx bs angles call cancel).totalToProcess =
      ((s.products.drop idx).take (min (idx + bs) s.products.length - idx)).length *
        (angles.filter (·.enabled)).length ∧
    (handleGenerateBatch s idx bs angles call cancel).products =
      commitGroups call (angles.filter (·.enabled)) s.products idx
        ((s.products.drop idx).take (min (idx + bs) s.products.length - idx)) 0 := by
  have hA : 0 < (angles.filter (·.enabled)).length := by
    rcases Nat.eq_zero_or_pos (angles.filter (·.enabled)).length with h | h
    · rw [h, Nat.mul_zero] at hk
      omega
    · exact h
  have hS : 0 < ((s.products.drop idx).take
      (min (idx + bs) s.products.length - idx)).length := by
    rcases Nat.eq_zero_or_pos ((s.products.drop idx).take
        (min (idx + bs) s.products.length - idx)).length with h | h
    · rw [h, Nat.zero_mul] at hk
      omega
    · exact h
  have hlen : ¬ s.products.length = 0 := by
    have h1 : ((s.products.drop idx).take
        (min (idx + bs) s.products.length - idx)).length ≤ s.products.length := by
      simp only [List.length_take, List.length_drop]
      omega
    omega
  have hgrp := runGroups_complete call cancel s.stopRequested
    (angles.filter (·.enabled)) hstop
    ((s.products.drop idx).take (min (idx + bs) s.products.length - idx)) idx
    s.products (batchEntryRunSt s)
  have hflag := runGroups_flag_hit call cancel s.stopRequested
    (angles.filter (·.enabled)) k hstop hck
    ((s.products.drop idx).take (min (idx + bs) s.products.length - idx)) idx
    s.products (batchEntryRunSt s) (by simp) (by simpa using hk)
  rcases hres : runGroups call cancel s.stopRequested (angles.filter (·.enabled))
      ((s.products.drop idx).take (min (idx + bs) s.products.length - idx)) idx
      s.products (batchEntryRunSt s) with ⟨catalog, stf, stopped⟩
  rw [hres] at hgrp hflag
  simp only [batchEntryRunSt_processed, batchEntryRunSt_requestCount,
    batchEntryRunSt_unitIdx] at hgrp
  obtain ⟨hst, hcat, hp, hr, _⟩ := hgrp
  have hst2 : stopped = false := hst
  subst hst2
  have hflag2 : stf.stopRequested = true := hflag
  refine ⟨?_, ?_, ?_, ?_, ?_, ?_, ?_⟩ <;>
    simp only [handleGenerateBatch, hlen, if_false, hres] <;>
    simp [hp, hr, hcat, hflag2]

/-- Witness for c1_cancellation: one group Red carrying a previous result
entry, two enabled views, all calls succeeding, cancellation requested at
unit 0 (the first unit, while it is in flight). The run nevertheless
processes both units, issues both requests, commits the freshly generated
pair over the previous results, ends with status completed - and leaves
the ambient flag latched true. -/
theorem c1_cancellation_witness :
    (handleGenerateBatch sRedOld 0 1 [angleFront, angleBack]
      (fun _ => .ok { width := 800, height := 800, pix := "g" })
      (fun u => decide (u = 0))).processed = 2 ∧
    (handleGenerateBatch sRedOld 0 1 [angleFront, angleBack]
      (fun _ => .ok { width := 800, height := 800, pix := "g" })
      (fun u => decide (u = 0))).requestCount = 2 ∧
    (handleGenerateBatch sRedOld 0 1 [angleFront, angleBack]
      (fun _ => .ok { width := 800, height := 800, pix := "g" })
      (fun u => decide (u = 0))).stopRequested = true ∧
    (handleGenerateBatch sRedOld 0 1 [angleFront, angleBack]
      (fun _ => .ok { width := 800, height := 800, pix := "g" })
      (fun u => decide (u = 0))).apiStatus = "Completed" := by
  have h := c1_cancellation sRedOld 0 1 [angleFront, angleBack]
    (fun _ => .ok { width := 800, height := 800, pix := "g" })
    (fun u => decide (u = 0)) 0 rfl (by decide) (by decide)
  exact ⟨by decide, by decide, h.2.2.1, h.2.1⟩


/-! Theorems for the orchestrator claims C2, C5 and C8. -/

/-- Claim C2 (corrected): the original claim fails on two points. First, a
failed result entry does not carry the error message: the pushed record has
an empty File and an empty preview and no field holds the message (in the
batch path the message only goes to the bounded activity log; the
generate-all path drops it entirely), so two runs failing with different
messages produce identical entries. Second, only the batch path increments
the request counter per unit; handleGenerateAll never touches it. The rest
holds: per enabled view of every processed group the client is invoked
once, success appends exactly one completed entry and failure exactly one
failed entry, the processed counter increments per unit in both paths, a
per-unit failure never aborts the run, and the processed counter reaches
100 percent of totalUnits at run end regardless of the number of
failures. -/
theorem c2_per_unit (s : AppState) (idx bs : Nat) (angles : List AngleConfig)
    (call : Nat → Except GenError Img)
    (hstop : s.stopRequested = false) (hne : s.products ≠ []) :
    (handleGenerateBatch s idx bs angles call (fun _ => false)).totalToProcess =
      ((s.products.drop idx).take (min (idx + bs) s.products.length - idx)).length *
        (angles.filter (·.enabled)).length ∧
    (handleGenerateBatch s idx bs angles call (fun _ => false)).processed =
      ((s.products.drop idx).take (min (idx + bs) s.products.length - idx)).length *
        (angles.filter (·.enabled)).length ∧
    (handleGenerateBatch s idx bs angles call (fun _ => false)).requestCount =
      ((s.products.drop idx).take (min (idx + bs) s.products.length - idx)).length *
        (angles.filter (·.enabled)).length ∧
    (handleGenerateBatch s idx bs angles call (fun _ => false)).status = .completed ∧
    (handleGenerateBatch s idx bs angles call (fun _ => false)).products =
      commitGroups call (angles.filter (·.enabled)) s.products idx
        ((s.products.drop idx).take (min (idx + bs) s.products.length - idx)) 0 ∧
    (handleGenerateAll s angles call (fun _ => false)).totalToProcess =
      s.products.length * (angles.filter (·.enabled)).length ∧
    (handleGenerateAll s angles call (fun _ => false)).processed =
      s.products.length * (angles.filter (·.enabled)).length ∧
    (handleGenerateAll s angles call (fun _ => false)).requestCount = s.requestCount ∧
    (handleGenerateAll s angles call (fun _ => false)).status = .completed ∧
    (handleGenerateAll s angles call (fun _ => false)).products =
      commitGroups call (angles.filter (·.enabled)) s.products 0 s.products 0 ∧
    (∀ (pname : String) (angs : List AngleConfig) (u : Nat),
      (groupResults call pname angs u).length = angs.length) ∧
    (∀ (pname : String) (angs : List AngleConfig) (u i : Nat), i < angs.length →
      ((groupResults call pname angs u).getD i default).status =
        (match call (u + i) with
         | .ok _ => Status.completed
         | .error _ => Status.failed) ∧
      ((groupResults call pname angs u).getD i default).angle =
        some ((angs.getD i default).name)) ∧
    (∀ (pname : String) (a : AngleConfig),
      (angleFailEntry pname a).preview = none ∧ (angleFailEntry pname a).file = none) := by
  obtain ⟨hb1, hb2, hb3, hb4, _, hb6⟩ :=
    handleGenerateBatch_noCancel s idx bs angles call hstop hne
  obtain ⟨ha1, ha2, ha3, ha4, _, ha6⟩ :=
    handleGenerateAll_noCancel s angles call hstop hne
  exact ⟨hb1, hb2, hb3, hb4, hb6, ha1, ha2, ha3, ha4, ha6,
    fun pname angs u => groupResults_length call pname angs u,
    fun pname angs u i hi => groupResults_status call pname angs u i hi,
    fun pname a => ⟨rfl, rfl⟩⟩

/-- Counterexample for claim C2 as stated: a handleGenerateAll run over one
group with two enabled views whose calls always fail leaves the request
counter at 0 instead of incrementing it once per unit, and produces the
same catalog whether the error message was boom or zap - so the failed
entries cannot be carrying the error message. The run still completes with
both units processed. -/
theorem c2_per_unit_counterexample :
    (handleGenerateAll sRed [angleFront, angleBack]
      (fun _ => .error { message := "boom", status := none }) (fun _ => false)).requestCount
      = 0 ∧
    (handleGenerateAll sRed [angleFront, angleBack]
      (fun _ => .error { message := "boom", status := none }) (fun _ => false)).processed
      = 2 ∧
    (handleGenerateAll sRed [angleFront, angleBack]
      (fun _ => .error { message := "boom", status := none }) (fun _ => false)).products =
    (handleGenerateAll sRed [angleFront, angleBack]
      (fun _ => .error { message := "zap", status := none }) (fun _ => false)).products ∧
    (handleGenerateAll sRed [angleFront, angleBack]
      (fun _ => .error { message := "boom", status := none }) (fun _ => false)).products =
      [{ productRed with
         generatedImages := [angleFailEntry "Red" angleFront,
                             angleFailEntry "Red" angleBack] }] := by
  refine ⟨by decide, by decide, by decide, by decide⟩

/-- Witness for c2_per_unit at a concrete one-product, two-view, all-success
run. -/
theorem c2_per_unit_witness :
    (handleGenerateBatch sRed 0 1 [angleFront, angleBack]
      (fun _ => .ok { width := 800, height := 800, pix := "g" }) (fun _ => false)).processed
      = 2 ∧
    (handleGenerateAll sRed [angleFront, angleBack]
      (fun _ => .ok { width := 800, height := 800, pix := "g" }) (fun _ => false)).requestCount
      = 0 := by
  have h := c2_per_unit sRed 0 1 [angleFront, angleBack]
    (fun _ => .ok { width := 800, height := 800, pix := "g" }) rfl (by decide)
  constructor
  · rw [h.2.1]; decide
  · rw [h.2.2.2.2.2.2.2.1]; decide

/-- Claim C5 (corrected): the first half of the claim holds - a generation
call without an API credential fails with the missing-credential error
before any network activity (zero remote attempts). The second half fails:
the condition is not fatal to the run. The orchestrator performs no
credential pre-check; the missing-credential error thrown inside the first
unit is caught at the unit boundary like any other failure, so every unit
produces a failed entry and the run completes with the processed counter at
100 percent, instead of aborting before any unit starts. -/
theorem c5_missing_credential (oracle : Nat → Nat → Except GenError (Option Img))
    (targetSize : Nat) (s : AppState) (idx bs : Nat) (angles : List AngleConfig)
    (hstop : s.stopRequested = false) (hne : s.products ≠ []) :
    (∀ u, generateProductAngleM "" (oracle u) targetSize =
      { result := .error missingCredentialErr, attempts := 0, delays := [] }) ∧
    (handleGenerateBatch s idx bs angles
      (fun u => (generateProductAngleM "" (oracle u) targetSize).result)
      (fun _ => false)).status = .completed ∧
    (handleGenerateBatch s idx bs angles
      (fun u => (generateProductAngleM "" (oracle u) targetSize).result)
      (fun _ => false)).processed =
      ((s.products.drop idx).take (min (idx + bs) s.products.length - idx)).length *
        (angles.filter (·.enabled)).length ∧
    (∀ j, j < s.products.length →
      (handleGenerateBatch s idx bs angles
        (fun u => (generateProductAngleM "" (oracle u) targetSize).result)
        (fun _ => false)).products[j]? = s.products[j]? ∨
      (∃ p, (handleGenerateBatch s idx bs angles
        (fun u => (generateProductAngleM "" (oracle u) targetSize).result)
        (fun _ => false)).products[j]? = some p ∧
        ∀ x ∈ p.generatedImages, x.status = .failed)) := by
  have hcall : (fun u => (generateProductAngleM "" (oracle u) targetSize).result) =
      (fun _ : Nat => (Except.error missingCredentialErr : Except GenError Img)) := by
    funext u
    rfl
  obtain ⟨_, _, _, hb4, _, hb6⟩ := handleGenerateBatch_noCancel s idx bs angles
    (fun u => (generateProductAngleM "" (oracle u) targetSize).result) hstop hne
  obtain ⟨_, hb2, _, _, _, _⟩ := handleGenerateBatch_noCancel s idx bs angles
    (fun u => (generateProductAngleM "" (oracle u) targetSize).result) hstop hne
  refine ⟨fun u => rfl, hb4, hb2, ?_⟩
  intro j hj
  set slice := (s.products.drop idx).take (min (idx + bs) s.products.length - idx) with hslice
  by_cases hin : idx ≤ j ∧ j < idx + slice.length
  · right
    have hbound : idx + slice.length ≤ s.products.length := by
      have h1 : slice.length ≤ s.products.length - idx := by
        rw [hslice]
        simp [List.length_take, List.length_drop]
      have h2 : idx < s.products.length := by omega
      omega
    have hj2 : j - idx < slice.length := by omega
    have hidx : j = idx + (j - idx) := by omega
    have hins := commitGroups_inside
      (fun u => (generateProductAngleM "" (oracle u) targetSize).result)
      (angles.filter (·.enabled)) slice idx 0 s.products (j - idx) hbound hj2
    refine ⟨_, by rw [hb6, hidx]; exact hins, ?_⟩
    intro x hx
    simp only at hx
    rw [hcall] at hx
    exact groupResults_const_error missingCredentialErr _ _ _ x hx
  · left
    rw [hb6]
    apply commitGroups_outside
    omega

/-- Counterexample for claim C5 as stated: with no credential anywhere, a
batch run over one group with two enabled views is NOT aborted before the
first unit; it completes, processes both units and stores two failed
entries for the group. -/
theorem c5_missing_credential_counterexample :
    (handleGenerateBatch sRed 0 1 [angleFront, angleBack]
      (fun u => (generateProductAngleM "" (fun _ => .ok none) 800).result)
      (fun _ => false)).processed = 2 ∧
    (handleGenerateBatch sRed 0 1 [angleFront, angleBack]
      (fun u => (generateProductAngleM "" (fun _ => .ok none) 800).result)
      (fun _ => false)).status = .completed ∧
    (handleGenerateBatch sRed 0 1 [angleFront, angleBack]
      (fun u => (generateProductAngleM "" (fun _ => .ok none) 800).result)
      (fun _ => false)).products =
      [{ productRed with
         generatedImages := [angleFailEntry "Red" angleFront,
                             angleFailEntry "Red" angleBack] }] := by
  refine ⟨by decide, by decide, by decide⟩

/-- Witness for c5_missing_credential at a concrete state. -/
theorem c5_missing_credential_witness :
    generateProductAngleM "" (fun _ => .ok (some { width := 1, height := 1, pix := "r" })) 800 =
      { result := .error missingCredentialErr, attempts := 0, delays := [] } ∧
    (handleGenerateBatch sRed 0 1 [angleFront, angleBack]
      (fun u => (generateProductAngleM ""
        (fun _ => .ok (some { width := 1, height := 1, pix := "r" })) 800).result)
      (fun _ => false)).status = .completed := by
  have h := c5_missing_credential
    (fun _ _ => .ok (some { width := 1, height := 1, pix := "r" })) 800
    sRed 0 1 [angleFront, angleBack] rfl (by decide)
  exact ⟨h.1 0, h.2.1⟩

/-- Claim C8 (corrected): at run start handleGenerateBatch computes
totalUnits as the clipped slice length times the number of enabled views
and resets the processed counter, the request counter and the activity log
(then appends a start entry) before the first unit - but it does NOT clear
the cancellation flag, which keeps its ambient value. A flag left set at
run entry is observed by the very first poll: the new run then stops before
processing any unit, clearing the flag only at that poll and leaving the
catalog untouched. -/
theorem c8_run_reset (s : AppState) (idx bs : Nat) (angles : List AngleConfig)
    (call : Nat → Except GenError Img) :
    (batchEntryRunSt s).processed = 0 ∧
    (batchEntryRunSt s).requestCount = 0 ∧
    (batchEntryRunSt s).log =
      [{ msg := "Starting generation process...", kind := .info }] ∧
    (batchEntryRunSt s).stopRequested = s.stopRequested ∧
    (s.products ≠ [] →
      (handleGenerateBatch s idx bs angles call (fun _ => false)).totalToProcess =
        ((s.products.drop idx).take (min (idx + bs) s.products.length - idx)).length *
          (angles.filter (·.enabled)).length) ∧
    (s.stopRequested = true → idx < s.products.length → 0 < bs →
      (handleGenerateBatch s idx bs angles call (fun _ => false)).processed = 0 ∧
      (handleGenerateBatch s idx bs angles call (fun _ => false)).requestCount = 0 ∧
      (handleGenerateBatch s idx bs angles call (fun _ => false)).stopRequested = false ∧
      (handleGenerateBatch s idx bs angles call (fun _ => false)).products = s.products) := by
  refine ⟨rfl, rfl, rfl, rfl, ?_, ?_⟩
  · intro hne
    have hlen : ¬ s.products.length = 0 := by
      simpa [List.length_eq_zero] using hne
    rcases hres : runGroups call (fun _ => false) s.stopRequested
        (angles.filter (·.enabled))
        ((s.products.drop idx).take (min (idx + bs) s.products.length - idx)) idx
        s.products (batchEntryRunSt s) with ⟨catalog, stf, stopped⟩
    cases stopped <;> simp [handleGenerateBatch, hlen, hres]
  · intro hflag hidx hbs
    have hlen : ¬ s.products.length = 0 := by omega
    have hslice : ∃ p ps,
        (s.products.drop idx).take (min (idx + bs) s.products.length - idx) = p :: ps := by
      have hl : 0 < ((s.products.drop idx).take
          (min (idx + bs) s.products.length - idx)).length := by
        simp only [List.length_take, List.length_drop]
        omega
      cases hsl : (s.products.drop idx).take (min (idx + bs) s.products.length - idx) with
      | nil => rw [hsl] at hl; simp at hl
      | cons p ps => exact ⟨p, ps, rfl⟩
    obtain ⟨p, ps, hsl⟩ := hslice
    have hrun : runGroups call (fun _ => false) s.stopRequested
        (angles.filter (·.enabled))
        (p :: ps) idx s.products (batchEntryRunSt s) =
        (s.products, stopObservedSt (batchEntryRunSt s), true) := by
      simp [runGroups, hflag]
    refine ⟨?_, ?_, ?_, ?_⟩ <;>
      simp [handleGenerateBatch, hlen, hsl, hrun]

/-- Counterexample for claim C8 as stated: with the cancellation flag still
set at run entry, the entry reset leaves the flag set (it is not cleared as
part of the RunState reset), and the ensuing run stops before the first
unit: zero units processed out of a computed total of 2, catalog
untouched. -/
theorem c8_run_reset_counterexample :
    (batchEntryRunSt { sRed with stopRequested := true }).stopRequested = true ∧
    (handleGenerateBatch { sRed with stopRequested := true } 0 1 [angleFront, angleBack]
      (fun _ => .ok { width := 800, height := 800, pix := "g" })
      (fun _ => false)).totalToProcess = 2 ∧
    (handleGenerateBatch { sRed with stopRequested := true } 0 1 [angleFront, angleBack]
      (fun _ => .ok { width := 800, height := 800, pix := "g" })
      (fun _ => false)).processed = 0 ∧
    (handleGenerateBatch { sRed with stopRequested := true } 0 1 [angleFront, angleBack]
      (fun _ => .ok { width := 800, height := 800, pix := "g" })
      (fun _ => false)).products = sRed.products := by
  refine ⟨by decide, by decide, by decide, by decide⟩

/-- Witness for c8_run_reset at a concrete state with the flag set. -/
theorem c8_run_reset_witness :
    (batchEntryRunSt { sRed with stopRequested := true }).requestCount = 0 ∧
    (handleGenerateBatch { sRed with stopRequested := true } 0 1 [angleFront]
      (fun _ => .ok { width := 800, height := 800, pix := "g" })
      (fun _ => false)).processed = 0 := by
  have h := c8_run_reset { sRed with stopRequested := true } 0 1 [angleFront]
    (fun _ => .ok { width := 800, height := 800, pix := "g" })
  exact ⟨h.2.1, (h.2.2.2.2.2 rfl (by decide) (by decide)).1⟩

/-! Helper lemmas for catalog ingestion (claim C9). -/

lemma insertColor_mem_old :
    ∀ (cm : ColorMap) (c : String) (f : RawFile) (cf : String × List RawFile),
      cf ∈ cm → ∃ cf2 ∈ insertColor cm c f, cf2.1 = cf.1 ∧ cf.2 ⊆ cf2.2 := by
  intro cm
  induction cm with
  | nil => intro c f cf h; simp at h
  | cons hd rest ih =>
    obtain ⟨c0, fs⟩ := hd
    intro c f cf h
    rw [List.mem_cons] at h
    by_cases hc : c0 = c
    · rcases h with h | h
      · refine ⟨(c0, fs ++ [f]), by simp [insertColor, hc], by rw [h], ?_⟩
        rw [h]
        simp
      · exact ⟨cf, by simp [insertColor, hc, h], rfl, by simp⟩
    · rcases h with h | h
      · refine ⟨(c0, fs), by simp [insertColor, hc], by rw [h], ?_⟩
        rw [h]
        exact List.Subset.refl _
      · obtain ⟨cf2, hmem, heq, hsub⟩ := ih c f cf h
        exact ⟨cf2, by simp [insertColor, hc, hmem], heq, hsub⟩

lemma insertColor_mem_new :
    ∀ (cm : ColorMap) (c : String) (f : RawFile),
      ∃ cf ∈ insertColor cm c f, cf.1 = c ∧ f ∈ cf.2 := by
  intro cm
  induction cm with
  | nil => intro c f; exact ⟨(c, [f]), by simp [insertColor], rfl, by simp⟩
  | cons hd rest ih =>
    obtain ⟨c0, fs⟩ := hd
    intro c f
    by_cases hc : c0 = c
    · exact ⟨(c0, fs ++ [f]), by simp [insertColor, hc], hc, by simp⟩
    · obtain ⟨cf, hmem, heq, hf⟩ := ih c f
      exact ⟨cf, by simp [insertColor, hc, hmem], heq, hf⟩

lemma insertFolder_mem_old :
    ∀ (m : FolderMap) (p c : String) (f : RawFile) (pc : String × ColorMap),
      pc ∈ m → ∃ pc2 ∈ insertFolder m p c f, pc2.1 = pc.1 ∧
        ∀ cf ∈ pc.2, ∃ cf2 ∈ pc2.2, cf2.1 = cf.1 ∧ cf.2 ⊆ cf2.2 := by
  intro m
  induction m with
  | nil => intro p c f pc h; simp at h
  | cons hd rest ih =>
    obtain ⟨p0, cm0⟩ := hd
    intro p c f pc h
    rw [List.mem_cons] at h
    by_cases hp : p0 = p
    · rcases h with h | h
      · refine ⟨(p0, insertColor cm0 c f), by simp [insertFolder, hp], by rw [h], ?_⟩
        intro cf hcf
        rw [h] at hcf
        exact insertColor_mem_old cm0 c f cf hcf
      · exact ⟨pc, by simp [insertFolder, hp, h], rfl,
          fun cf hcf => ⟨cf, hcf, rfl, by simp⟩⟩
    · rcases h with h | h
      · refine ⟨(p0, cm0), by simp [insertFolder, hp], by rw [h], ?_⟩
        intro cf hcf
        rw [h] at hcf
        exact ⟨cf, hcf, rfl, by simp⟩
      · obtain ⟨pc2, hmem, heq, hall⟩ := ih p c f pc h
        exact ⟨pc2, by simp [insertFolder, hp, hmem], heq, hall⟩

lemma insertFolder_mem_new :
    ∀ (m : FolderMap) (p c : String) (f : RawFile),
      ∃ pc ∈ insertFolder m p c f, pc.1 = p ∧ ∃ cf ∈ pc.2, cf.1 = c ∧ f ∈ cf.2 := by
  intro m
  induction m with
  | nil =>
    intro p c f
    refine ⟨(p, insertColor [] c f), by simp [insertFolder], rfl, ?_⟩
    exact insertColor_mem_new [] c f
  | cons hd rest ih =>
    obtain ⟨p0, cm0⟩ := hd
    intro p c f
    by_cases hp : p0 = p
    · exact ⟨(p0, insertColor cm0 c f), by simp [insertFolder, hp], hp,
        insertColor_mem_new cm0 c f⟩
    · obtain ⟨pc, hmem, heq, hin⟩ := ih p c f
      exact ⟨pc, by simp [insertFolder, hp, hmem], heq, hin⟩

/-- The file f sits in the bucket of key (p, c) of the folder map. -/
def InMap (m : FolderMap) (f : RawFile) (p c : String) : Prop :=
  ∃ pc ∈ m, pc.1 = p ∧ ∃ cf ∈ pc.2, cf.1 = c ∧ f ∈ cf.2

lemma InMap_insertFolder {m : FolderMap} {f : RawFile} {p c : String}
    (p2 c2 : String) (g : RawFile) (h : InMap m f p c) :
    InMap (insertFolder m p2 c2 g) f p c := by
  obtain ⟨pc, hpc, hp, cf, hcf, hc, hf⟩ := h
  obtain ⟨pc2, hmem2, heq2, hall⟩ := insertFolder_mem_old m p2 c2 g pc hpc
  obtain ⟨cf2, hmem3, heq3, hsub⟩ := hall cf hcf
  exact ⟨pc2, hmem2, heq2.trans hp, cf2, hmem3, heq3.trans hc, hsub hf⟩

lemma InMap_scanStep {m : FolderMap} {f : RawFile} {p c : String}
    (g : RawFile) (h : InMap m f p c) : InMap (scanStep m g) f p c := by
  unfold scanStep
  by_cases hi : isImage g
  · cases hk : fileKey g with
    | none => simpa [hi, hk] using h
    | some pc2 =>
      cases pc2 with
      | mk p2 c2 => simpa [hi, hk] using InMap_insertFolder p2 c2 g h
  · simpa [hi] using h

lemma InMap_foldl {f : RawFile} {p c : String} :
    ∀ (l : List RawFile) (m : FolderMap),
      InMap m f p c → InMap (l.foldl scanStep m) f p c := by
  intro l
  induction l with
  | nil => intro m h; exact h
  | cons g rest ih =>
    intro m h
    rw [List.foldl_cons]
    exact ih (scanStep m g) (InMap_scanStep g h)

lemma InMap_of_mem {f : RawFile} {p c : String} :
    ∀ (l : List RawFile) (m : FolderMap),
      f ∈ l → isImage f = true → fileKey f = some (p, c) →
      InMap (l.foldl scanStep m) f p c := by
  intro l
  induction l with
  | nil => intro m h; simp at h
  | cons g rest ih =>
    intro m h hi hk
    rw [List.mem_cons] at h
    rw [List.foldl_cons]
    rcases h with h | h
    · subst h
      apply InMap_foldl rest (scanStep m f)
      unfold scanStep
      rw [if_pos hi, hk]
      exact insertFolder_mem_new m p c f
    · exact ih (scanStep m g) h hi hk

/-- Invariant of the folder map built from files: every bucket is nonempty
and every file in the bucket of key (p, c) is an image file from the input
whose path classifies it under exactly that key. -/
def FMInv (files : List RawFile) (m : FolderMap) : Prop :=
  ∀ pc ∈ m, ∀ cf ∈ pc.2, cf.2 ≠ [] ∧
    ∀ g ∈ cf.2, g ∈ files ∧ isImage g = true ∧ fileKey g = some (pc.1, cf.1)

lemma insertColor_inv (Q : RawFile → String → Prop) :
    ∀ (cm : ColorMap) (c : String) (f : RawFile),
      (∀ cf ∈ cm, cf.2 ≠ [] ∧ ∀ g ∈ cf.2, Q g cf.1) → Q f c →
      ∀ cf ∈ insertColor cm c f, cf.2 ≠ [] ∧ ∀ g ∈ cf.2, Q g cf.1 := by
  intro cm
  induction cm with
  | nil =>
    intro c f _ hQ cf hcf
    simp only [insertColor, List.mem_singleton] at hcf
    subst hcf
    exact ⟨by simp, by simpa using hQ⟩
  | cons hd rest ih =>
    obtain ⟨c0, fs⟩ := hd
    intro c f hinv hQ cf hcf
    by_cases hc : c0 = c
    · rw [show insertColor ((c0, fs) :: rest) c f = (c0, fs ++ [f]) :: rest by
        simp [insertColor, hc]] at hcf
      rw [List.mem_cons] at hcf
      rcases hcf with hcf | hcf
      · subst hcf
        refine ⟨by simp, ?_⟩
        intro g hg
        simp only [List.mem_append, List.mem_singleton] at hg
        rcases hg with hg | hg
        · exact ((hinv (c0, fs) (by simp)).2 g hg)
        · subst hg
          simp only [hc]
          exact hQ
      · exact hinv cf (by simp [hcf])
    · rw [show insertColor ((c0, fs) :: rest) c f = (c0, fs) :: insertColor rest c f by
        simp [insertColor, hc]] at hcf
      rw [List.mem_cons] at hcf
      rcases hcf with hcf | hcf
      · subst hcf
        exact hinv (c0, fs) (by simp)
      · exact ih c f (fun cf2 h2 => hinv cf2 (by simp [h2])) hQ cf hcf

lemma insertFolder_inv {files : List RawFile} :
    ∀ (m : FolderMap) (p c : String) (f : RawFile),
      FMInv files m → f ∈ files → isImage f = true → fileKey f = some (p, c) →
      FMInv files (insertFolder m p c f) := by
  intro m
  induction m with
  | nil =>
    intro p c f _ hf hi hk pc hpc cf hcf
    simp only [insertFolder, List.mem_singleton] at hpc
    subst hpc
    simp only [insertColor, List.mem_singleton] at hcf
    subst hcf
    exact ⟨by simp, by simp [hf, hi, hk]⟩
  | cons hd rest ih =>
    obtain ⟨p0, cm0⟩ := hd
    intro p c f hinv hf hi hk pc hpc cf hcf
    by_cases hp : p0 = p
    · rw [show insertFolder ((p0, cm0) :: rest) p c f =
          (p0, insertColor cm0 c f) :: rest by simp [insertFolder, hp]] at hpc
      rw [List.mem_cons] at hpc
      rcases hpc with hpc | hpc
      · subst hpc
        refine insertColor_inv
          (fun g c2 => g ∈ files ∧ isImage g = true ∧ fileKey g = some (p0, c2))
          cm0 c f (fun cf2 h2 => hinv (p0, cm0) (by simp) cf2 h2)
          ⟨hf, hi, by rw [hp]; exact hk⟩ cf hcf
      · exact hinv pc (by simp [hpc]) cf hcf
    · rw [show insertFolder ((p0, cm0) :: rest) p c f =
          (p0, cm0) :: insertFolder rest p c f by simp [insertFolder, hp]] at hpc
      rw [List.mem_cons] at hpc
      rcases hpc with hpc | hpc
      · subst hpc
        exact hinv (p0, cm0) (by simp) cf hcf
      · exact ih p c f (fun pc2 h2 => hinv pc2 (by simp [h2])) hf hi hk pc hpc cf hcf

lemma scanStep_inv {files : List RawFile} {m : FolderMap} {f : RawFile}
    (hinv : FMInv files m) (hf : f ∈ files) : FMInv files (scanStep m f) := by
  unfold scanStep
  by_cases hi : isImage f
  · cases hk : fileKey f with
    | none => simpa [hi, hk] using hinv
    | some pc =>
      cases pc with
      | mk p c => simpa [hi, hk] using insertFolder_inv m p c f hinv hf hi hk
  · simpa [hi] using hinv

lemma foldl_inv {files : List RawFile} :
    ∀ (l : List RawFile) (m : FolderMap),
      (∀ f ∈ l, f ∈ files) → FMInv files m → FMInv files (l.foldl scanStep m) := by
  intro l
  induction l with
  | nil => intro m _ h; exact h
  | cons g rest ih =>
    intro m hsub h
    rw [List.foldl_cons]
    exact ih (scanStep m g) (fun f hf => hsub f (by simp [hf]))
      (scanStep_inv h (hsub g (by simp)))

lemma buildFolderMap_inv (files : List RawFile) : FMInv files (buildFolderMap files) := by
  apply foldl_inv files [] (fun f hf => hf)
  intro pc hpc
  simp at hpc

lemma productsOfMap_sound {files : List RawFile} {m : FolderMap}
    (hinv : FMInv files m) :
    ∀ g ∈ productsOfMap m, g.images ≠ [] ∧ g.generatedImages = [] ∧
      ∃ f ∈ files, isImage f = true ∧ expectedGroupName f = some g.name := by
  intro g hg
  unfold productsOfMap at hg
  rw [List.mem_flatMap] at hg
  obtain ⟨pc, hpc, hg⟩ := hg
  rw [List.mem_flatMap] at hg
  obtain ⟨cf, hcf, hg⟩ := hg
  obtain ⟨hne, hall⟩ := hinv pc hpc cf hcf
  cases hfs : cf.2 with
  | nil => exact absurd hfs hne
  | cons f0 fs =>
    rw [hfs] at hg
    simp only [List.length_cons, List.length_map] at hg
    rw [if_pos (by omega)] at hg
    simp only [List.mem_singleton] at hg
    subst hg
    obtain ⟨hmem, hi, hk⟩ := hall f0 (by rw [hfs]; simp)
    refine ⟨by simp, rfl, f0, hmem, hi, ?_⟩
    simp only [expectedGroupName, hk, hfs]

lemma productsOfMap_complete {m : FolderMap} {f : RawFile} {p c : String}
    (h : InMap m f p c) :
    ∃ g ∈ productsOfMap m,
      g.name = (if c = "default" then p else p ++ " - " ++ c) ∧
      mkImageFile f ∈ g.images := by
  obtain ⟨pc, hpc, hp, cf, hcf, hc, hf⟩ := h
  refine ⟨{ name := if cf.1 = "default" then pc.1 else pc.1 ++ " - " ++ cf.1,
            images := cf.2.map mkImageFile, generatedImages := [] }, ?_, ?_, ?_⟩
  · unfold productsOfMap
    rw [List.mem_flatMap]
    refine ⟨pc, hpc, ?_⟩
    rw [List.mem_flatMap]
    refine ⟨cf, hcf, ?_⟩
    have hlen : 0 < (cf.2.map mkImageFile).length := by
      simp only [List.length_map]
      exact List.length_pos_of_mem hf
    rw [if_pos hlen]
    simp
  · simp only [hp, hc]
  · exact List.mem_map_of_mem mkImageFile hf

lemma foldl_scanStep_filter :
    ∀ (l : List RawFile) (m : FolderMap),
      l.foldl scanStep m = (l.filter isImage).foldl scanStep m := by
  intro l
  induction l with
  | nil => intro m; rfl
  | cons f rest ih =>
    intro m
    by_cases hi : isImage f
    · rw [List.foldl_cons, List.filter_cons_of_pos hi, List.foldl_cons, ih]
    · have hstep : scanStep m f = m := by simp [scanStep, hi]
      rw [List.foldl_cons, hstep, List.filter_cons_of_neg hi, ih]

/-! Theorems for the ingestion claim C9 and the sorting claim C10. -/

/-- Claim C9 (corrected): the grouping rule holds as stated for files lying
under at least one subfolder - one group per first-level subfolder named by
it, distinct groups named parent - child when a second level is present,
only nonempty groups, non-image files ignored everywhere - but the claim
fails for an image file lying directly in the selected root: its path has
exactly two segments, so the file NAME itself is taken as the first-level
folder name and a singleton group named after the file is produced, even
though no corresponding subfolder exists. The theorem states the amended
rule over the stored (sorted) catalog: ignoring non-image files changes
nothing; every group is nonempty with empty generatedImages and is named by
the (possibly file-name) second segment of one of its member image files,
with the parent - child naming for paths of four or more segments; and
conversely every image file with at least two path segments lands in a
group of exactly that name. -/
theorem c9_grouping (locale : String → String → Int) (files : List RawFile) :
    handleSelectFolderModel locale files =
      handleSelectFolderModel locale (files.filter isImage) ∧
    (∀ g ∈ handleSelectFolderModel locale files,
      g.images ≠ [] ∧ g.generatedImages = [] ∧
      ∃ f ∈ files, isImage f = true ∧ expectedGroupName f = some g.name) ∧
    (∀ f ∈ files, isImage f = true → ∀ nm, expectedGroupName f = some nm →
      ∃ g ∈ handleSelectFolderModel locale files,
        g.name = nm ∧ mkImageFile f ∈ g.images) := by
  refine ⟨?_, ?_, ?_⟩
  · unfold handleSelectFolderModel buildProducts buildFolderMap
    rw [foldl_scanStep_filter]
  · intro g hg
    unfold handleSelectFolderModel at hg
    rw [List.mem_mergeSort] at hg
    exact productsOfMap_sound (buildFolderMap_inv files) g hg
  · intro f hf hi nm hnm
    unfold expectedGroupName at hnm
    cases hk : fileKey f with
    | none => rw [hk] at hnm; simp at hnm
    | some kk =>
      obtain ⟨p, c⟩ := kk
      rw [hk] at hnm
      simp only [Option.some.injEq] at hnm
      have him : InMap (buildFolderMap files) f p c := InMap_of_mem files [] hf hi hk
      obtain ⟨g, hgmem, hname, hfin⟩ := productsOfMap_complete him
      refine ⟨g, ?_, by rw [hname, hnm], hfin⟩
      unfold handleSelectFolderModel
      rw [List.mem_mergeSort]
      exact hgmem

/-- An image file lying directly in the selected root folder. -/
def rootImg : RawFile :=
  { name := "photo.png", path := "root/photo.png", mime := "image/png",
    img := { width := 10, height := 10, pix := "q" } }

unseal List.merge List.mergeSort in
/-- Counterexample for claim C9 as stated: a tree with no first-level
subfolder at all, just one image file directly in the selected root,
produces one group - named after the FILE, photo.png - although the claim
implies the catalog should contain one group per first-level subfolder
(here none). -/
theorem c9_grouping_counterexample :
    handleSelectFolderModel (fun _ _ => 0) [rootImg] =
      [{ name := "photo.png", images := [mkImageFile rootImg],
         generatedImages := [] }] := by
  decide

/-- Witness for c9_grouping at a concrete two-file input (one image under a
subfolder, one non-image file). -/
theorem c9_grouping_witness :
    ∃ g ∈ handleSelectFolderModel (fun _ _ => 0)
      [{ name := "a.png", path := "root/Shoes/a.png", mime := "image/png",
         img := { width := 1, height := 1, pix := "a" } },
       { name := "b.txt", path := "root/Shoes/b.txt", mime := "text/plain",
         img := { width := 1, height := 1, pix := "b" } }],
      g.name = "Shoes" ∧
      mkImageFile { name := "a.png", path := "root/Shoes/a.png", mime := "image/png",
                    img := { width := 1, height := 1, pix := "a" } } ∈ g.images := by
  exact (c9_grouping (fun _ _ => 0) _).2.2
    { name := "a.png", path := "root/Shoes/a.png", mime := "image/png",
      img := { width := 1, height := 1, pix := "a" } }
    (by decide) (by decide) "Shoes" (by decide)

/-! Theorem for the sorting claim C10. -/

lemma productCompare_le_trans (locale : String → String → Int)
    (htrans : ∀ a b c, locale a b ≤ 0 → locale b c ≤ 0 → locale a c ≤ 0) :
    ∀ a b c : Product,
      decide (productCompare locale a b ≤ 0) = true →
      decide (productCompare locale b c ≤ 0) = true →
      decide (productCompare locale a c ≤ 0) = true := by
  intro a b c hab hbc
  simp only [decide_eq_true_eq] at hab hbc ⊢
  unfold productCompare at hab hbc ⊢
  cases hda : startsDigit a.name <;> cases hdb : startsDigit b.name <;>
    cases hdc : startsDigit c.name <;> simp_all <;>
    exact htrans _ _ _ hab hbc

lemma productCompare_le_total (locale : String → String → Int)
    (htotal : ∀ a b, locale a b ≤ 0 ∨ locale b a ≤ 0) :
    ∀ a b : Product,
      (decide (productCompare locale a b ≤ 0) ||
       decide (productCompare locale b a ≤ 0)) = true := by
  intro a b
  simp only [Bool.or_eq_true, decide_eq_true_eq]
  unfold productCompare
  cases hda : startsDigit a.name <;> cases hdb : startsDigit b.name <;> simp_all

/-- Claim C10 (confirmed): after every catalog build the product list stored
as the catalog is a permutation of the built (discovery-order) group list,
sorted so that every group whose name starts with a digit precedes every
group whose name does not, and so that within each of the two classes
groups are in comparator order - the locale comparison being modelled as an
abstract integer-valued comparator assumed transitive and total on the
nonpositive side, since the numeric, case-insensitive collation itself is
implemented by the host localeCompare. -/
theorem c10_sort_order (locale : String → String → Int) (files : List RawFile)
    (htrans : ∀ a b c, locale a b ≤ 0 → locale b c ≤ 0 → locale a c ≤ 0)
    (htotal : ∀ a b, locale a b ≤ 0 ∨ locale b a ≤ 0) :
    (handleSelectFolderModel locale files).Perm (buildProducts files) ∧
    List.Pairwise (fun a b =>
      (startsDigit a.name = false → startsDigit b.name = false) ∧
      (startsDigit a.name = startsDigit b.name → locale a.name b.name ≤ 0))
      (handleSelectFolderModel locale files) := by
  constructor
  · exact List.mergeSort_perm (buildProducts files) _
  · have hs := List.sorted_mergeSort (productCompare_le_trans locale htrans)
      (productCompare_le_total locale htotal) (buildProducts files)
    refine List.Pairwise.imp ?_ hs
    intro a b hab
    rw [decide_eq_true_eq] at hab
    constructor
    · intro hna
      by_contra hnb
      have hb : startsDigit b.name = true := by
        cases h : startsDigit b.name
        · exact absurd h hnb
        · rfl
      simp [productCompare, hna, hb] at hab
    · intro heq
      cases hda : startsDigit a.name
      · have hdb : startsDigit b.name = false := by rw [← heq, hda]
        simpa [productCompare, hda, hdb] using hab
      · have hdb : startsDigit b.name = true := by rw [← heq, hda]
        simpa [productCompare, hda, hdb] using hab

/-- A concrete total, transitive comparator on strings used to witness
c10_sort_order: lexicographic order via the linear order on String. -/
def localeLex (a b : String) : Int := if a < b then -1 else if b < a then 1 else 0

lemma localeLex_nonpos (a b : String) : localeLex a b ≤ 0 ↔ a ≤ b := by
  unfold localeLex
  rcases lt_trichotomy a b with h | h | h
  · simp [h, le_of_lt h]
  · subst h
    simp
  · rw [if_neg (by exact not_lt_of_gt h), if_pos h]
    constructor
    · intro hc
      omega
    · intro hc
      exact absurd hc (not_le_of_gt h)

/-- Witness for c10_sort_order at a concrete input and the concrete
lexicographic comparator. -/
theorem c10_sort_order_witness :
    (handleSelectFolderModel localeLex [rootImg]).Perm (buildProducts [rootImg]) ∧
    List.Pairwise (fun a b =>
      (startsDigit a.name = false → startsDigit b.name = false) ∧
      (startsDigit a.name = startsDigit b.name → localeLex a.name b.name ≤ 0))
      (handleSelectFolderModel localeLex [rootImg]) := by
  apply c10_sort_order localeLex [rootImg]
  · intro a b c hab hbc
    rw [localeLex_nonpos] at hab hbc ⊢
    exact le_trans hab hbc
  · intro a b
    rw [localeLex_nonpos, localeLex_nonpos]
    exact le_total a b

end AIGen
